import Mathlib

/-!
# AIChatLog: verification of the Source Decoder / Sync Planner / Resolver pipeline

Shallow embedding of the Chrome-extension sync pipeline:

* `chrome-extension/content-scripts/gemini-api.js` — batchexecute envelope
  decoding (`parseBatchExecuteResponse`), list pagination, id normalization
  and deduplication (`fetchAllConversationsViaAPI`), and the Gemini decoder
  (`convertGeminiAPIToDBFormat`).
* `chrome-extension/content-scripts/claude-api.js` — the Claude incremental
  list filter (`fetchAllConversationsViaAPI`) and decoder
  (`convertClaudeAPIToDBFormat`).
* `chrome-extension/content-scripts/chatgpt-api.js` — the ChatGPT paginated
  list fetch and the tree-walking decoder (`convertChatGPTAPIToDBFormat`).
* the ChatGPT content script's `performSyncAll` / `performSyncQuick` loops and
  `chatgpt-sync-state-manager.js`.

JavaScript values that flow through the Gemini envelope parser are modelled by
`JValue` (the JSON fragment actually used by these payloads: null, booleans,
integers, strings, arrays).  JavaScript truthiness is modelled by `jsTruthy`.
Ambient impurity (`new Date()`) is modelled by a `TimeVal` sum so the decoders
stay pure while preserving exactly the distinctions the source makes.
-/

namespace AIChatLog

/-- A JavaScript/JSON value as used by the batchexecute payloads: `null`,
booleans, (integer) numbers, strings and arrays.  The payloads this code
decodes never carry objects or fractional numbers, so those are omitted. -/
inductive JValue where
  | null
  | jbool (b : Bool)
  | num (n : Int)
  | str (s : String)
  | arr (xs : List JValue)

/-- JavaScript truthiness of a (possibly `undefined`, i.e. `none`) value:
`undefined`, `null`, `false`, `0` and `""` are falsy, everything else truthy. -/
def jsTruthy : Option JValue → Bool
  | none => false
  | some JValue.null => false
  | some (JValue.jbool b) => b
  | some (JValue.num n) => n != 0
  | some (JValue.str s) => s != ""
  | some (JValue.arr _) => true

mutual

/-- JavaScript `String(v)` on the values above (arrays join their elements
with commas, `null` inside an array renders as the empty string). -/
def jsToString : JValue → String
  | JValue.null => "null"
  | JValue.jbool b => if b then ("true") else ("false")
  | JValue.num n => toString n
  | JValue.str s => s
  | JValue.arr xs => jsArrJoin xs

/-- `Array.prototype.join(",")`: `null` elements render as `""`. -/
def jsArrJoin : List JValue → String
  | [] => ""
  | [JValue.null] => ""
  | [x] => jsToString x
  | JValue.null :: y :: rest => "," ++ jsArrJoin (y :: rest)
  | x :: y :: rest => jsToString x ++ "," ++ jsArrJoin (y :: rest)

end

/-! ## String and line utilities

Kernel-reducible (structural) versions of the string operations the source
uses: `split('\n')`, `trim()`, and the `/^\d+$/` length-line test. -/

/-- `text.split('\n')` as a structural recursion over characters. -/
def splitLinesChars : List Char → List String
  | [] => [("")]
  | c :: cs =>
      let rest := splitLinesChars cs
      if c = '\n' then ("") :: rest
      else
        match rest with
        | [] => [String.mk [c]]
        | l :: ls => String.mk (c :: l.data) :: ls

/-- `text.split('\n')`. -/
def splitLines (s : String) : List String := splitLinesChars s.data

/-- JavaScript whitespace for `trim()` (the characters relevant here). -/
def isJsWs (c : Char) : Bool := c = ' ' || c = '\n' || c = '\t' || c = '\r'

/-- `line.trim()`. -/
def jsTrim (s : String) : String :=
  String.mk (((s.data.dropWhile isJsWs).reverse.dropWhile isJsWs).reverse)

/-- `/^\d+$/.test(line.trim())`: the trimmed line is nonempty and all digits. -/
def isLengthLine (s : String) : Bool :=
  let t := (jsTrim s).data
  t ≠ [] && t.all Char.isDigit

/-! ## A JSON parser for the fragment (`JSON.parse`)

Fuel-based recursive-descent parser over characters, total and executable.
It covers exactly the fragment `JValue` models (null, booleans, integer
numbers, strings with `\"`/`\\` escapes, arrays); on anything else it fails,
which the envelope scanner treats the same way as a `JSON.parse` throw. -/

/-- Skip JSON insignificant whitespace. -/
def skipJsonWs : List Char → List Char
  | c :: cs => if isJsWs c then skipJsonWs cs else c :: cs
  | [] => []

/-- Parse the body of a string literal (after the opening quote). -/
def parseJsonString (acc : List Char) : List Char → Option (String × List Char)
  | '"' :: rest => some (String.mk acc.reverse, rest)
  | '\\' :: '"' :: rest => parseJsonString ('"' :: acc) rest
  | '\\' :: '\\' :: rest => parseJsonString ('\\' :: acc) rest
  | '\\' :: 'n' :: rest => parseJsonString ('\n' :: acc) rest
  | '\\' :: _ :: _ => none
  | '\\' :: [] => none
  | c :: rest => parseJsonString (c :: acc) rest
  | [] => none

/-- Take a maximal run of decimal digits. -/
def takeJsonDigits : List Char → List Char × List Char
  | c :: cs =>
      if c.isDigit then
        let (ds, r) := takeJsonDigits cs
        (c :: ds, r)
      else ([], c :: cs)
  | [] => ([], [])

/-- Digits to a natural number. -/
def digitsVal (ds : List Char) : Nat :=
  ds.foldl (fun acc c => acc * 10 + (c.toNat - ('0').toNat)) 0

mutual

/-- Parse one value. `fuel` only bounds recursion depth; the top-level call
supplies more fuel than any input can consume. -/
def parseJsonValue : Nat → List Char → Option (JValue × List Char)
  | 0, _ => none
  | fuel + 1, cs =>
      match skipJsonWs cs with
      | 'n' :: 'u' :: 'l' :: 'l' :: r => some (JValue.null, r)
      | 't' :: 'r' :: 'u' :: 'e' :: r => some (JValue.jbool true, r)
      | 'f' :: 'a' :: 'l' :: 's' :: 'e' :: r => some (JValue.jbool false, r)
      | '"' :: r =>
          match parseJsonString [] r with
          | some (s, r') => some (JValue.str s, r')
          | none => none
      | '[' :: r =>
          match skipJsonWs r with
          | ']' :: r' => some (JValue.arr [], r')
          | r' =>
              match parseJsonElems fuel r' with
              | some (xs, r'') => some (JValue.arr xs, r'')
              | none => none
      | '-' :: r =>
          match takeJsonDigits r with
          | ([], _) => none
          | (ds, r') => some (JValue.num (-(digitsVal ds : Int)), r')
      | c :: r =>
          if c.isDigit then
            match takeJsonDigits (c :: r) with
            | (ds, r') => some (JValue.num (digitsVal ds : Int), r')
          else none
      | [] => none

/-- Parse one-or-more comma-separated values followed by `]`. -/
def parseJsonElems : Nat → List Char → Option (List JValue × List Char)
  | 0, _ => none
  | fuel + 1, cs =>
      match parseJsonValue fuel cs with
      | none => none
      | some (v, r) =>
          match skipJsonWs r with
          | ',' :: r' =>
              match parseJsonElems fuel r' with
              | some (vs, r'') => some (v :: vs, r'')
              | none => none
          | ']' :: r' => some ([v], r')
          | _ => none

end

/-- `JSON.parse` on the fragment: the whole input must be one value plus
trailing whitespace. -/
def jsonParse (s : String) : Option JValue :=
  match parseJsonValue (s.data.length + 1) s.data with
  | some (v, r) => if skipJsonWs r = [] then some v else none
  | none => none

/-! ## `parseBatchExecuteResponse` (gemini-api.js lines 19-144)

The source strips the CSRF marker, splits the text into lines, skips
whitespace-only lines, treats all-digit lines as length markers delimiting
chunks (the first loop that finds `startIndex` only skips leading empties and
one leading length line, which the chunk loop would treat identically, so the
two loops compose to the single pass below), joins the raw lines of each chunk
with `''`, `JSON.parse`s each chunk independently, and scans chunks and their
items in order for the first `wrb.fr` envelope with a truthy rpc id.  A decode
failure throws after `console.error`-logging the chunk list; the `Except`
error value carries those logged chunks. -/

/-- The CSRF marker `)]}'\n` (written as characters; `\x7d` is `}`). -/
def csrfMarker : List Char := [')', ']', '\x7d', '\'', '\n']

/-- `if (text.startsWith(")]\x7d'\n")) cleaned = text.substring(5)`. -/
def dropCsrf (s : String) : String :=
  if csrfMarker.isPrefixOf s.data then String.mk (s.data.drop 5) else s

/-- The `startIndex` computation: skip leading whitespace-only lines; if the
first non-empty line is a length line, start after it, else at it. -/
def chunkStart : List String → List String
  | [] => []
  | l :: ls =>
      if jsTrim l = "" then chunkStart ls
      else if isLengthLine l then ls
      else l :: ls

/-- The chunk-collection loop: whitespace-only lines are skipped, length lines
close the current chunk (if any), data lines are accumulated raw and joined
with `''` (`cur` holds the current chunk's lines in reverse). -/
def collectChunksAux : List String → List String → List String
  | [], cur => if cur.isEmpty then [] else [String.join cur.reverse]
  | l :: ls, cur =>
      if jsTrim l = "" then collectChunksAux ls cur
      else if isLengthLine l then
        if cur.isEmpty then collectChunksAux ls []
        else String.join cur.reverse :: collectChunksAux ls []
      else collectChunksAux ls (l :: cur)

/-- Lines to chunk strings (both loops of the source composed). -/
def collectChunks (lines : List String) : List String :=
  collectChunksAux (chunkStart lines) []

/-- One response item, i.e. `["wrb.fr", rpcId, data, , , errorArray]`:
if the item is a nonempty array whose marker is the string `"wrb.fr"` and
whose rpc id is truthy, then explicit-`null` data yields the empty result
structure `[null, null, []]`, truthy string data is `JSON.parse`d (falling
back to the raw string), truthy non-string data is returned as-is, and falsy
non-`null` data falls through (`none`: the scan continues). -/
def evalItem (item : JValue) : Option JValue :=
  match item with
  | JValue.arr (JValue.str m :: rest) =>
      if m = "wrb.fr" && jsTruthy (rest.get? 0) then
        match rest.get? 1 with
        | some JValue.null =>
            some (JValue.arr [JValue.null, JValue.null, JValue.arr []])
        | d =>
            if jsTruthy d then
              match d with
              | some (JValue.str s) =>
                  match jsonParse s with
                  | some v => some v
                  | none => some (JValue.str s)
              | some v => some v
              | none => none
            else none
      else none
  | _ => none

/-- The inner item loop of a chunk. -/
def scanItems : List JValue → Option JValue
  | [] => none
  | it :: rest =>
      match evalItem it with
      | some r => some r
      | none => scanItems rest

/-- The chunk loop: a chunk that fails to parse, parses to a non-array, or
parses to an empty array is skipped; otherwise its items are scanned. -/
def scanChunks : List String → Option JValue
  | [] => none
  | c :: rest =>
      match jsonParse c with
      | some (JValue.arr (x :: xs)) =>
          match scanItems (x :: xs) with
          | some r => some r
          | none => scanChunks rest
      | _ => scanChunks rest

/-- The parser on the line list: scan the collected chunks; if no `wrb.fr`
response is found, throw (the error carries the chunk strings the source
`console.error`-logs at the throw site). -/
def parseLines (lines : List String) : Except (List String) JValue :=
  match scanChunks (collectChunks lines) with
  | some v => Except.ok v
  | none => Except.error (collectChunks lines)

/-- `parseBatchExecuteResponse(text)`. -/
def parseBatchExecuteResponse (text : String) : Except (List String) JValue :=
  parseLines (splitLines (dropCsrf text))

/-- The items a chunk string contributes to the scan: the elements of its
parse when that is an array, nothing otherwise. -/
def chunkItems (c : String) : List JValue :=
  match jsonParse c with
  | some (JValue.arr xs) => xs
  | _ => []

/-- All items the chunk list contributes, in scan order. -/
def itemsOfChunks (chunks : List String) : List JValue :=
  chunks.flatMap chunkItems

/-! ## Gemini list pagination, id normalization, dedup
(gemini-api.js lines 294-327 and 335-526)

`fetchAllConversationsViaAPI` runs a `do … while (continuationToken)` loop.
Each iteration issues one request whose session token is
`continuationToken || sessionToken`; the parsed response `data` is consumed
as `[null, continuationToken, [conversations]]`: when `data` is an array of
length ≥ 3, index 2 (when an array) is appended after per-item id
normalization, and index 1 becomes the next continuation token only when it
is a truthy string (`nextToken && typeof nextToken === 'string'`); any other
shape ends the loop.  The fetch loop is embedded as a function of the initial
session token and the (parsed) response of each request, returning the session
tokens actually sent, one per request issued, together with the accumulated
conversation rows. -/

/-- `normalizeConversationId`: strip one leading `c_` (`replace(/^c_/, '')`);
falsy input is returned unchanged (callers only reach this with strings). -/
def normalizeConversationId (s : String) : String :=
  match s.data with
  | c1 :: c2 :: rest => if c1 = 'c' ∧ c2 = '_' then String.mk rest else s
  | _ => s

/-- Per-page id normalization (lines 411-418): an array row with a truthy
first element gets that element replaced by its normalized id. -/
def normalizePageRow (conv : JValue) : JValue :=
  match conv with
  | JValue.arr (c0 :: rest) =>
      if jsTruthy (some c0)
      then JValue.arr (JValue.str (normalizeConversationId (jsToString c0)) :: rest)
      else JValue.arr (c0 :: rest)
  | v => v

/-- The continuation token of a parsed list response: index 1 of an
array of length ≥ 3, accepted only when it is a truthy string. -/
def contTokenOf (data : JValue) : Option String :=
  match data with
  | JValue.arr (_ :: t :: _ :: _) =>
      match t with
      | JValue.str s => if s ≠ "" then some s else none
      | _ => none
  | _ => none

/-- The conversation rows of a parsed list response: index 2 of an array of
length ≥ 3, when that index holds an array (normalized per row). -/
def pageRowsOf (data : JValue) : List JValue :=
  match data with
  | JValue.arr (_ :: _ :: JValue.arr rows :: _) => rows.map normalizePageRow
  | _ => []

/-- The pagination loop, as a function of the initial session token and the
successive parsed responses.  Returns (session tokens sent, accumulated
rows); the token list has one entry per request issued.  An exhausted
response list models the transport failing, which aborts the whole fetch. -/
def geminiFetchPages : String → List JValue → List String × List JValue
  | tok, [] => ([tok], [])
  | tok, data :: rest =>
      let rows := pageRowsOf data
      match contTokenOf data with
      | some next =>
          let (toks, convs) := geminiFetchPages next rest
          (tok :: toks, rows ++ convs)
      | none => ([tok], rows)

/-- `convId` of the dedup loop (lines 495-511): `Array.isArray(conv) ?
normalizeConversationId(conv[0]) : null`, then kept only when truthy. -/
def dedupIdOf (conv : JValue) : Option String :=
  match conv with
  | JValue.arr xs =>
      match xs.get? 0 with
      | some v =>
          if jsTruthy (some v) then
            let n := normalizeConversationId (jsToString v)
            if n ≠ "" then some n else none
          else none
      | none => none
  | _ => none

/-- Write the normalized id back into an array row (`conv[0] = convId`). -/
def setRowId (conv : JValue) (id : String) : JValue :=
  match conv with
  | JValue.arr xs => JValue.arr (xs.set 0 (JValue.str id))
  | v => v

/-- The dedup loop (lines 490-517): rows without a usable id are dropped, a
row whose normalized id was already seen is skipped, a kept row gets the
normalized id written back into position 0. -/
def geminiDedupAux : List JValue → List String → List JValue
  | [], _ => []
  | conv :: rest, seen =>
      match dedupIdOf conv with
      | some id =>
          if seen.contains id then geminiDedupAux rest seen
          else setRowId conv id :: geminiDedupAux rest (id :: seen)
      | none => geminiDedupAux rest seen

/-- `deduplicatedConversations` for a fetched row list. -/
def geminiDedup (convs : List JValue) : List JValue := geminiDedupAux convs []

/-- The id a deduplicated row carries in position 0 (kept rows always hold
their normalized id there after `conv[0] = convId`). -/
def rowId0 (conv : JValue) : Option String :=
  match conv with
  | JValue.arr (JValue.str i :: _) => some i
  | _ => none

/-! ## Canonical records and timestamps

`TimeVal` embeds the timestamp expressions the decoders build: a source ISO
string passed through, a Unix-epoch conversion (`new Date(n * 1000)
.toISOString()`, kept symbolic as the number of milliseconds), or the ambient
clock fallback `new Date().toISOString()`. -/

/-- A timestamp value as produced by the decoders. -/
inductive TimeVal where
  | iso (s : String)
  | ofUnixMs (ms : Int)
  | now
deriving DecidableEq

/-- A canonical message row (`sequence_number` is the JS number field). -/
structure DBMessage where
  role : String
  content : String
  thinking : Option String := none
  timestamp : TimeVal
  sequence_number : Nat

/-- A canonical conversation row. -/
structure DBConversation where
  conversation_id : String
  title : String
  source : String
  created_at : TimeVal
  updated_at : TimeVal
  messages : List DBMessage

/-! ## Claude decoder (claude-api.js lines 99-164) -/

/-- One element of a Claude message's `content` array. -/
structure ClaudePart where
  ptype : Option String := none
  thinking : Option String := none
  text : Option String := none

/-- One element of `chat_messages`. -/
structure ClaudeMsg where
  sender : String
  content : Option (List ClaudePart) := none
  text : Option String := none
  created_at : Option String := none

/-- A Claude API conversation. -/
structure ClaudeConversation where
  uuid : String
  name : Option String := none
  created_at : Option String := none
  updated_at : Option String := none
  chat_messages : Option (List ClaudeMsg) := none

/-- Truthiness of an optional string (absent and `""` are falsy). -/
def strTruthy : Option String → Bool
  | some s => s ≠ ""
  | none => false

/-- `opt || dflt` on strings. -/
def jsOrStr (opt : Option String) (dflt : String) : String :=
  match opt with
  | some s => if s ≠ "" then s else dflt
  | none => dflt

/-- `s || new Date().toISOString()` (absent and `""` fall back to now). -/
def isoOrNow (opt : Option String) : TimeVal :=
  match opt with
  | some s => if s ≠ "" then TimeVal.iso s else TimeVal.now
  | none => TimeVal.now

/-- `extractClaudeMessageContent`: thinking parts and text parts are
collected from the `content` array, then `msg.text` is appended to the text
parts; both are joined with newlines and trimmed. -/
def extractClaudeMessageContent (msg : ClaudeMsg) : String × String :=
  let fromParts :=
    match msg.content with
    | some parts =>
        parts.foldl
          (fun (acc : List String × List String) (part : ClaudePart) =>
            if part.ptype = some ("thinking") && strTruthy part.thinking then
              (acc.1, acc.2 ++ [part.thinking.getD ("")])
            else if strTruthy part.text then
              (acc.1 ++ [part.text.getD ("")], acc.2)
            else acc)
          ([], [])
    | none => ([], [])
  let textParts := fromParts.1 ++ (if strTruthy msg.text then [msg.text.getD ("")] else [])
  (jsTrim (String.intercalate ("\n") textParts),
   jsTrim (String.intercalate ("\n") fromParts.2))

/-- The `chat_messages.forEach((msg, index) => …)` body: human and assistant
senders are emitted with `sequence_number: index`; any other sender is
dropped (but `index` still advances). -/
def claudeMessagesAux : List ClaudeMsg → Nat → List DBMessage
  | [], _ => []
  | msg :: rest, index =>
      let tc := extractClaudeMessageContent msg
      (if msg.sender = "human" then
        [{ role := "user", content := tc.1,
           timestamp := isoOrNow msg.created_at, sequence_number := index }]
      else if msg.sender = "assistant" then
        [{ role := "assistant", content := tc.1,
           thinking := if tc.2 ≠ "" then some tc.2 else none,
           timestamp := isoOrNow msg.created_at, sequence_number := index }]
      else []) ++ claudeMessagesAux rest (index + 1)

/-- `convertClaudeAPIToDBFormat`. -/
def convertClaudeAPIToDBFormat (c : ClaudeConversation) : DBConversation :=
  { conversation_id := c.uuid
    title := jsOrStr c.name ("Untitled Conversation")
    source := "claude"
    created_at := isoOrNow c.created_at
    updated_at := isoOrNow c.updated_at
    messages :=
      match c.chat_messages with
      | some msgs => claudeMessagesAux msgs 0
      | none => [] }

/-! ## ChatGPT decoder (chatgpt-api.js lines 263-349)

The detail payload is a tree: `mapping` maps node ids to
`{message, parent, children}`; the decoder walks parent links from
`current_node` to the root, `unshift`ing nodes that carry a message with
content and author, then emits the chain in order with
`sequence_number: messages.length`, skipping system-authored and
empty-content nodes.

The JS `while` loop diverges on a cyclic `mapping`; the embedding walks with
`mapping.length` fuel, which is enough for any genuine (acyclic) parent
chain, since such a chain visits pairwise distinct mapping keys. -/

/-- `message.author` (`{role}`). -/
structure ChatGPTAuthor where
  role : Option String := none

/-- One part of `message.content.parts` (`string` or some other node type). -/
inductive ChatGPTPart where
  | pstr (s : String)
  | pother

/-- `message.content`: a `parts` array, a `text` field, or neither. -/
structure ChatGPTContent where
  parts : Option (List ChatGPTPart) := none
  text : Option String := none

/-- A tree node's `message`. -/
structure ChatGPTMsg where
  author : Option ChatGPTAuthor := none
  content : Option ChatGPTContent := none
  create_time : Option Int := none

/-- A `mapping` node. -/
structure ChatGPTNode where
  message : Option ChatGPTMsg := none
  parent : Option String := none

/-- A ChatGPT detail payload.  `create_time`/`update_time` model the numeric
(Unix seconds) case; the source also passes an already-ISO string through
unchanged, which `TimeVal.iso` would represent the same way the decoders'
other pass-through fields do. -/
structure ChatGPTConversation where
  id : Option String := none
  conversation_id : Option String := none
  title : Option String := none
  create_time : Option Int := none
  update_time : Option Int := none
  mapping : List (String × ChatGPTNode) := []
  current_node : Option String := none

/-- `mapping[nodeId]` (JS object lookup; first binding wins). -/
def lookupNode (mapping : List (String × ChatGPTNode)) (id : String) :
    Option ChatGPTNode :=
  (mapping.find? (fun p => p.1 = id)).map (fun p => p.2)

/-- `node.message && node.message.content && node.message.author`. -/
def nodeCarriesMessage (node : ChatGPTNode) : Bool :=
  match node.message with
  | some msg => msg.content.isSome && msg.author.isSome
  | none => false

/-- The `while (nodeId && mapping[nodeId])` walk building `messageChain`
(root first, because each passing node is `unshift`ed).  A falsy (empty)
node id stops the walk even if the mapping had such a key. -/
def buildMessageChain (mapping : List (String × ChatGPTNode)) :
    Nat → Option String → List ChatGPTNode
  | 0, _ => []
  | _, none => []
  | fuel + 1, some id =>
      if id = "" then []
      else
        match lookupNode mapping id with
        | none => []
        | some node =>
            buildMessageChain mapping fuel node.parent ++
              (if nodeCarriesMessage node then [node] else [])

/-- The ids of every node the walk visits (the leaf-to-root path through the
mapping, root first), whether or not it carries a message. -/
def walkPathIds (mapping : List (String × ChatGPTNode)) :
    Nat → Option String → List String
  | 0, _ => []
  | _, none => []
  | fuel + 1, some id =>
      if id = "" then []
      else
        match lookupNode mapping id with
        | none => []
        | some node => walkPathIds mapping fuel node.parent ++ [id]

/-- `message.content.parts.filter(typeof string).join('\n')`, falling back to
`content.text`, else `''`. -/
def chatgptContentText (msg : ChatGPTMsg) : String :=
  match msg.content with
  | some c =>
      match c.parts with
      | some parts =>
          String.intercalate ("\n")
            (parts.filterMap (fun p =>
              match p with
              | ChatGPTPart.pstr s => some s
              | ChatGPTPart.pother => none))
      | none =>
          match c.text with
          | some t => t
          | none => ""
  | none => ""

/-- The `messageChain.forEach((node, index) => …)` body: nodes without a
message, system-authored nodes and empty-content nodes are skipped; emitted
messages are numbered `messages.length`, i.e. by emission position. -/
def chatgptEmit : List ChatGPTNode → List DBMessage → List DBMessage
  | [], acc => acc
  | node :: rest, acc =>
      match node.message with
      | none => chatgptEmit rest acc
      | some msg =>
          let role := match msg.author with
            | some a => a.role
            | none => none
          if role = some ("system") then chatgptEmit rest acc
          else
            let content := chatgptContentText msg
            if jsTrim content = "" then chatgptEmit rest acc
            else
              chatgptEmit rest (acc ++
                [{ role := if role = some ("user") then ("user") else ("assistant")
                   content := content
                   timestamp :=
                     match msg.create_time with
                     | some t => TimeVal.ofUnixMs (t * 1000)
                     | none => TimeVal.now
                   sequence_number := acc.length }])

/-- `convertChatGPTAPIToDBFormat`. -/
def convertChatGPTAPIToDBFormat (c : ChatGPTConversation) : DBConversation :=
  let chain := buildMessageChain c.mapping c.mapping.length c.current_node
  { conversation_id := jsOrStr c.id (c.conversation_id.getD (""))
    title := jsOrStr c.title ("Untitled Conversation")
    source := "chatgpt"
    created_at :=
      match c.create_time with
      | some t => TimeVal.ofUnixMs (t * 1000)
      | none => TimeVal.now
    updated_at :=
      match c.update_time with
      | some t => TimeVal.ofUnixMs (t * 1000)
      | none => TimeVal.now
    messages := chatgptEmit chain [] }

/-! ## Gemini decoder (gemini-api.js lines 604-638) -/

/-- One element of a Gemini detail payload's `messages`. -/
structure GeminiMsg where
  role : Option String := none
  author : Option String := none
  content : Option String := none
  text : Option String := none
  timestamp : Option String := none
  created_at : Option String := none

/-- A Gemini detail payload (as the decoder reads it). -/
structure GeminiConversation where
  id : Option String := none
  conversation_id : Option String := none
  title : Option String := none
  name : Option String := none
  created_at : Option String := none
  updated_at : Option String := none
  messages : Option (List GeminiMsg) := none

/-- `msg.content || msg.text || ''`. -/
def geminiMsgContent (msg : GeminiMsg) : String :=
  jsOrStr msg.content (jsOrStr msg.text (""))

/-- `msg.timestamp || msg.created_at || new Date().toISOString()`. -/
def geminiMsgTime (msg : GeminiMsg) : TimeVal :=
  match msg.timestamp with
  | some s => if s ≠ "" then TimeVal.iso s else isoOrNow msg.created_at
  | none => isoOrNow msg.created_at

/-- The `messages.forEach((msg, index) => …)` body: `user` rows (by `role`
or `author`), then `assistant`/`model`/`gemini` rows, numbered by the raw
`index`; anything else is dropped with the index still advancing. -/
def geminiMessagesAux : List GeminiMsg → Nat → List DBMessage
  | [], _ => []
  | msg :: rest, index =>
      (if msg.role = some ("user") || msg.author = some ("user") then
        [{ role := "user", content := geminiMsgContent msg,
           timestamp := geminiMsgTime msg, sequence_number := index }]
      else if msg.role = some ("assistant") || msg.role = some ("model") ||
          msg.author = some ("gemini") then
        [{ role := "assistant", content := geminiMsgContent msg,
           timestamp := geminiMsgTime msg, sequence_number := index }]
      else []) ++ geminiMessagesAux rest (index + 1)

/-- `convertGeminiAPIToDBFormat`. -/
def convertGeminiAPIToDBFormat (c : GeminiConversation) : DBConversation :=
  { conversation_id := jsOrStr c.id (c.conversation_id.getD (""))
    title := jsOrStr c.title (jsOrStr c.name ("Untitled"))
    source := "gemini"
    created_at := isoOrNow c.created_at
    updated_at := isoOrNow c.updated_at
    messages :=
      match c.messages with
      | some msgs => geminiMessagesAux msgs 0
      | none => [] }

/-! ## Claude incremental list filter (claude-api.js lines 14-77)

After fetching the full list, the Claude client slices at the first index
whose `uuid` equals `stopAtConversationId` (when that option is truthy), then
applies `maxLimit` (when truthy) to the already-sliced list. -/

/-- A Claude list-endpoint row (the fields the filter inspects). -/
structure ClaudeListItem where
  uuid : String
deriving DecidableEq

/-- Lines 58-67: `if (stopAtConversationId) { const stopIndex =
conversations.findIndex(...); if (stopIndex !== -1) slice(0, stopIndex) }`. -/
def claudeApplyStop (conversations : List ClaudeListItem)
    (stopAtConversationId : Option String) : List ClaudeListItem :=
  match stopAtConversationId with
  | some stopId =>
      if stopId ≠ "" then
        match conversations.findIdx? (fun c => c.uuid = stopId) with
        | some stopIndex => conversations.take stopIndex
        | none => conversations
      else conversations
  | none => conversations

/-- Lines 69-73: `if (maxLimit && filteredConversations.length > maxLimit)
filteredConversations = filteredConversations.slice(0, maxLimit)`. -/
def claudeApplyLimit (filtered : List ClaudeListItem)
    (maxLimit : Option Nat) : List ClaudeListItem :=
  match maxLimit with
  | some m =>
      if m ≠ 0 && decide (m < filtered.length) then filtered.take m
      else filtered
  | none => filtered

/-- The filtering of `fetchAllConversationsViaAPI` (lines 55-76): the stop-id
slice, THEN the max-limit truncation. -/
def claudeFilterConversations (conversations : List ClaudeListItem)
    (maxLimit : Option Nat) (stopAtConversationId : Option String) :
    List ClaudeListItem :=
  claudeApplyLimit (claudeApplyStop conversations stopAtConversationId) maxLimit

/-! ## ChatGPT paginated list fetch (chatgpt-api.js lines 163-226)

A `while (hasMore && !foundStopId)` loop over pages of size 100.  Within each
page the stop id is looked for first (a hit appends the prefix before it and
breaks, bypassing the max-limit truncation); otherwise the whole page is
appended, the accumulator is truncated to `maxLimit` when it reaches it, and
`hasMore` turns false when the page is short or `data.total` is exhausted. -/

/-- A ChatGPT list-endpoint row (the field the loop inspects). -/
structure ChatGPTListItem where
  id : String
deriving DecidableEq

/-- One parsed page of `/conversations` (`data.items`, `data.total`). -/
structure ChatGPTListPage where
  items : List ChatGPTListItem
  total : Option Nat := none

/-- The page loop; `pages` holds the successive parsed responses (an
exhausted list models the transport failing, ending the fetch). -/
def chatgptFetchAux (pageSize : Nat) (maxLimit : Option Nat)
    (stopId : Option String) :
    List ChatGPTListPage → Nat → List ChatGPTListItem → List ChatGPTListItem
  | [], _, acc => acc
  | page :: rest, offset, acc =>
      let conversations := page.items
      let stopHit :=
        match stopId with
        | some s =>
            if s ≠ "" then conversations.findIdx? (fun c => c.id = s) else none
        | none => none
      match stopHit with
      | some stopIndex => acc ++ conversations.take stopIndex
      | none =>
          let acc2 := acc ++ conversations
          match maxLimit with
          | some m =>
              if m ≠ 0 && decide (m ≤ acc2.length) then acc2.take m
              else
                if decide (conversations.length < pageSize) ||
                    (match page.total with
                     | some t => t ≠ 0 && decide (t ≤ offset + pageSize)
                     | none => false) then acc2
                else chatgptFetchAux pageSize maxLimit stopId rest
                  (offset + pageSize) acc2
          | none =>
              if decide (conversations.length < pageSize) ||
                  (match page.total with
                   | some t => t ≠ 0 && decide (t ≤ offset + pageSize)
                   | none => false) then acc2
              else chatgptFetchAux pageSize maxLimit stopId rest
                (offset + pageSize) acc2

/-- `fetchAllConversationsViaAPI` for ChatGPT (`pageSize = 100`). -/
def chatgptFetchAllConversations (pages : List ChatGPTListPage)
    (maxLimit : Option Nat) (stopId : Option String) : List ChatGPTListItem :=
  chatgptFetchAux 100 maxLimit stopId pages 0 []

/-! ## Sync state and the `performSyncAll` / `performSyncQuick` loops
(chatgpt-sync-state-manager.js; ChatGPT content script)

The run loops are embedded as functions of the fetched list and of each
item's outcome (import accepted, import rejected with a non-OK status, or an
exception while fetching/importing).  The ambient clock is a parameter. -/

/-- `chatgpt_sync_state` (defaults as in `getChatGPTSyncState`). -/
structure ChatGPTSyncState where
  lastFullSync : Option Int := none
  lastQuickSync : Option Int := none
  lastKnownConversationId : Option String := none
  quickSyncDepth : Nat := 50

/-- `setChatGPTLastSyncedConversation(conversationId, type)`. -/
def setChatGPTLastSyncedConversation (st : ChatGPTSyncState)
    (conversationId : String) (type : String) (now : Int) : ChatGPTSyncState :=
  { st with
    lastKnownConversationId := some conversationId
    lastQuickSync := if type = "quick" then some now else st.lastQuickSync
    lastFullSync := if type = "full" then some now else st.lastFullSync }

/-- What happened to one item of a run. -/
inductive ItemOutcome where
  | ok
  | httpFail
  | exn

/-- The item loop's counters: `response.ok` increments `synced`, a non-OK
response or a thrown error increments `failed`, and the loop always
continues to the next item. -/
def syncLoopCounts : List ItemOutcome → Nat × Nat
  | [] => (0, 0)
  | ItemOutcome.ok :: rest =>
      let (s, f) := syncLoopCounts rest
      (s + 1, f)
  | _ :: rest =>
      let (s, f) := syncLoopCounts rest
      (s, f + 1)

/-- The observable outcome of a ChatGPT `performSyncAll` run: the
`syncComplete` summary sent (if any) and the resulting sync state. -/
structure SyncRunResult where
  summary : Option (Nat × Nat × Nat)
  state : ChatGPTSyncState

/-- `performSyncAll` (ChatGPT content script): an empty fetched list returns
early with no summary message and no state write; otherwise every item is
processed, the sync state is updated from the FIRST item of the list, and a
`{synced, failed, total}` summary is sent. -/
def performSyncAll (conversations : List ChatGPTListItem)
    (outcomes : List ItemOutcome) (st : ChatGPTSyncState) (now : Int) :
    SyncRunResult :=
  match conversations with
  | [] => { summary := none, state := st }
  | first :: _ =>
      let (synced, failed) := syncLoopCounts (outcomes.take conversations.length)
      { summary := some (synced, failed, conversations.length)
        state := setChatGPTLastSyncedConversation st first.id ("full") now }

/-- A whole run including the list fetch: a thrown fetch aborts before the
loop, so nothing is written and no summary is sent. -/
def performSyncAllRun (fetched : Option (List ChatGPTListItem))
    (outcomes : List ItemOutcome) (st : ChatGPTSyncState) (now : Int) :
    SyncRunResult :=
  match fetched with
  | none => { summary := none, state := st }
  | some conversations => performSyncAll conversations outcomes st now

/-- The `performSyncQuick` zero-changes branch: when the backend check
returns no ids, the state is still advanced and a `{0, 0, total}` summary is
sent. -/
def performSyncQuickZeroChanges (total : Nat) : Nat × Nat × Nat := (0, 0, total)

/-- One item of the Gemini `performSyncAll` loop: a row without a usable id
is counted failed without attempting a fetch. -/
structure GeminiRunItem where
  hasId : Bool
  outcome : ItemOutcome

/-- The Gemini item loop's counters. -/
def geminiSyncLoopCounts : List GeminiRunItem → Nat × Nat
  | [] => (0, 0)
  | it :: rest =>
      let (s, f) := geminiSyncLoopCounts rest
      if !it.hasId then (s, f + 1)
      else
        match it.outcome with
        | ItemOutcome.ok => (s + 1, f)
        | _ => (s, f + 1)

/-- Gemini `performSyncAll` summary: empty list returns early without one;
otherwise `{synced, failed, total}` is sent. -/
def geminiPerformSyncAllSummary (items : List GeminiRunItem) :
    Option (Nat × Nat × Nat) :=
  match items with
  | [] => none
  | _ =>
      let (s, f) := geminiSyncLoopCounts items
      some (s, f, items.length)

/-! ## Identity & Staleness Resolver (backend check endpoint) -/

/-- Modelled from the spec: the backend `/api/conversations/check`
implementation is not part of the extension sources (only its caller,
`performSyncQuick`, is).  Spec §4.2: "an item needs sync if it is absent
locally, or its remote timestamp strictly exceeds the stored timestamp, or
the stored timestamp is unknown/null (unknown is always treated as 'sync
it', never assumed current)".  `stored = none` means no local row;
`stored = some none` means a local row whose timestamp is unknown/null. -/
def needsSync (stored : Option (Option Int)) (remote : Option Int) : Bool :=
  match stored with
  | none => true
  | some none => true
  | some (some t) =>
      match remote with
      | some r => t < r
      | none => false

/-- Modelled from the spec: the Store's recorded `(source, id) -> updatedAt`
map, as an association list, and the per-candidate check against it. -/
def checkNeedsSync (store : List ((String × String) × Option Int))
    (source externalId : String) (remote : Option Int) : Bool :=
  needsSync
    ((store.find? (fun e => e.1 = (source, externalId))).map (fun e => e.2))
    remote

/-! ## Assembling multi-segment payloads

`assembleLines` builds the line list of a wire payload from its logical
segments: each segment is preceded by its length line, matching the
`<length>\n<json>\n<length>\n<json>` format the source documents.  A segment
is well formed when it is not blank and not itself all digits (such a
segment would be eaten as a length marker). -/

/-- The decimal digit character for `d < 10`. -/
def natDigitChar (d : Nat) : Char := Char.ofNat (48 + d)

/-- Decimal digits of `n` (fuel-based; `natDigitsOf` supplies enough). -/
def natDigitsAux : Nat → Nat → List Char
  | 0, _ => []
  | fuel + 1, n =>
      if n < 10 then [natDigitChar n]
      else natDigitsAux fuel (n / 10) ++ [natDigitChar (n % 10)]

/-- Decimal digits of `n`. -/
def natDigitsOf (n : Nat) : List Char := natDigitsAux (n + 1) n

/-- A segment usable as one length-prefixed chunk. -/
def wfSeg (s : String) : Bool := jsTrim s ≠ "" && !isLengthLine s

/-- The line list of the payload whose length-prefixed segments are `segs`. -/
def assembleLines (segs : List String) : List String :=
  segs.flatMap (fun s => [String.mk (natDigitsOf s.data.length), s])

theorem natDigitChar_isDigit {d : Nat} (h : d < 10) :
    (natDigitChar d).isDigit = true := by
  interval_cases d <;> decide

theorem natDigitsAux_all_digits :
    ∀ fuel n c, c ∈ natDigitsAux fuel n → c.isDigit = true := by
  intro fuel
  induction fuel with
  | zero => intro n c hc; simp [natDigitsAux] at hc
  | succ fuel ih =>
      intro n c hc
      by_cases hn : n < 10
      · simp [natDigitsAux, hn] at hc
        subst hc
        exact natDigitChar_isDigit hn
      · simp [natDigitsAux, hn] at hc
        rcases hc with hc | hc
        · exact ih _ _ hc
        · subst hc
          exact natDigitChar_isDigit (Nat.mod_lt _ (by omega))

theorem natDigitsAux_ne_nil (fuel n : Nat) (h : 0 < fuel) :
    natDigitsAux fuel n ≠ [] := by
  cases fuel with
  | zero => omega
  | succ fuel =>
      by_cases hn : n < 10 <;> simp [natDigitsAux, hn]

theorem not_ws_of_digit (c : Char) (h : c.isDigit = true) : isJsWs c = false := by
  cases hw : isJsWs c with
  | false => rfl
  | true =>
      exfalso
      simp only [isJsWs, Bool.or_eq_true, decide_eq_true_eq] at hw
      rcases hw with ((h1 | h1) | h1) | h1 <;> subst h1 <;>
        exact absurd h (by decide)

theorem dropWhile_ws_of_digits (ds : List Char)
    (h : ∀ c ∈ ds, c.isDigit = true) : ds.dropWhile isJsWs = ds := by
  cases ds with
  | nil => rfl
  | cons a t =>
      simp [List.dropWhile, not_ws_of_digit a (h a (by simp))]

theorem jsTrim_of_digits (ds : List Char) (h : ∀ c ∈ ds, c.isDigit = true) :
    jsTrim (String.mk ds) = String.mk ds := by
  have h1 : ds.dropWhile isJsWs = ds := dropWhile_ws_of_digits ds h
  have h2 : ds.reverse.dropWhile isJsWs = ds.reverse := by
    apply dropWhile_ws_of_digits
    intro c hc
    exact h c (List.mem_reverse.mp hc)
  simp [jsTrim, h1, h2]

theorem isLengthLine_digits (ds : List Char) (hne : ds ≠ [])
    (h : ∀ c ∈ ds, c.isDigit = true) :
    isLengthLine (String.mk ds) = true := by
  simp [isLengthLine, jsTrim_of_digits ds h, hne, List.all_eq_true]
  exact h

theorem natDigitsOf_all_digits (n : Nat) :
    ∀ c ∈ natDigitsOf n, c.isDigit = true :=
  fun c hc => natDigitsAux_all_digits _ _ c hc

theorem isLengthLine_natDigits (n : Nat) :
    isLengthLine (String.mk (natDigitsOf n)) = true :=
  isLengthLine_digits (natDigitsOf n) (natDigitsAux_ne_nil _ _ (by omega))
    (natDigitsOf_all_digits n)

theorem jsTrim_natDigits_ne (n : Nat) :
    jsTrim (String.mk (natDigitsOf n)) ≠ ("") := by
  rw [jsTrim_of_digits (natDigitsOf n) (natDigitsOf_all_digits n)]
  intro h
  exact natDigitsAux_ne_nil (n + 1) n (by omega) (congrArg String.data h)

theorem string_join_singleton (s : String) : String.join [s] = s := by
  cases s
  rfl

theorem wfSeg_trim_ne {s : String} (hs : wfSeg s = true) : jsTrim s ≠ "" := by
  simp [wfSeg] at hs
  exact hs.1

theorem wfSeg_not_len {s : String} (hs : wfSeg s = true) :
    isLengthLine s = false := by
  simp [wfSeg] at hs
  exact hs.2

theorem collectChunksAux_lenline (n : Nat) (ls cur : List String) :
    collectChunksAux (String.mk (natDigitsOf n) :: ls) cur =
      (if cur.isEmpty then [] else [String.join cur.reverse]) ++
        collectChunksAux ls [] := by
  have h1 := jsTrim_natDigits_ne n
  have h2 := isLengthLine_natDigits n
  cases cur with
  | nil => simp [collectChunksAux, h1, h2]
  | cons a t => simp [collectChunksAux, h1, h2]

theorem collectChunksAux_dataline {s : String} (hs : wfSeg s = true)
    (ls cur : List String) :
    collectChunksAux (s :: ls) cur = collectChunksAux ls (s :: cur) := by
  simp [collectChunksAux, wfSeg_trim_ne hs, wfSeg_not_len hs]

theorem chunkStart_lenline (n : Nat) (ls : List String) :
    chunkStart (String.mk (natDigitsOf n) :: ls) = ls := by
  simp [chunkStart, jsTrim_natDigits_ne n, isLengthLine_natDigits n]

theorem collectChunksAux_assemble (segs : List String)
    (h : ∀ s ∈ segs, wfSeg s = true) :
    ∀ cur, collectChunksAux (assembleLines segs) cur =
      (if cur.isEmpty then [] else [String.join cur.reverse]) ++ segs := by
  induction segs with
  | nil =>
      intro cur
      cases cur <;> simp [assembleLines, collectChunksAux]
  | cons s rest ih =>
      intro cur
      have hs : wfSeg s = true := h s (by simp)
      have hrest : ∀ t ∈ rest, wfSeg t = true := fun t ht => h t (by simp [ht])
      have hassemble : assembleLines (s :: rest) =
          String.mk (natDigitsOf s.data.length) :: s :: assembleLines rest := by
        simp [assembleLines]
      rw [hassemble, collectChunksAux_lenline,
        collectChunksAux_dataline hs, ih hrest [s]]
      simp [string_join_singleton]

/-- Reassembling well-formed segments and re-splitting them into chunks is
the identity: the chunk list of `assembleLines segs` is `segs`. -/
theorem collectChunks_assemble (segs : List String)
    (h : ∀ s ∈ segs, wfSeg s = true) :
    collectChunks (assembleLines segs) = segs := by
  cases segs with
  | nil => rfl
  | cons s rest =>
      have hs : wfSeg s = true := h s (by simp)
      have hrest : ∀ t ∈ rest, wfSeg t = true := fun t ht => h t (by simp [ht])
      have hassemble : assembleLines (s :: rest) =
          String.mk (natDigitsOf s.data.length) :: s :: assembleLines rest := by
        simp [assembleLines]
      unfold collectChunks
      rw [hassemble, chunkStart_lenline, collectChunksAux_dataline hs,
        collectChunksAux_assemble rest hrest [s]]
      simp [string_join_singleton]

/-! ## Scan structure lemmas -/

/-- An item the scan recognizes: a nonempty array whose marker is the string
`"wrb.fr"` and whose rpc id is truthy. -/
def isRecognizableEnvelope (item : JValue) : Bool :=
  match item with
  | JValue.arr (JValue.str m :: rest) => m = "wrb.fr" && jsTruthy (rest.get? 0)
  | _ => false

/-- The `data` slot of an envelope item (`item[2]`). -/
def dataFieldOf (item : JValue) : Option JValue :=
  match item with
  | JValue.arr xs => xs.get? 2
  | _ => none

theorem evalItem_none_of_not_recognizable {item : JValue}
    (h : isRecognizableEnvelope item = false) : evalItem item = none := by
  cases item with
  | arr xs =>
      cases xs with
      | nil => rfl
      | cons x rest =>
          cases x with
          | str m =>
              simp [isRecognizableEnvelope] at h
              by_cases hm : m = "wrb.fr"
              · simp [evalItem, hm, h hm]
              · simp [evalItem, hm]
          | null => rfl
          | jbool b => rfl
          | num n => rfl
          | arr ys => rfl
  | null => rfl
  | jbool b => rfl
  | num n => rfl
  | str s => rfl

theorem evalItem_null_data {item : JValue}
    (hrec : isRecognizableEnvelope item = true)
    (hdata : dataFieldOf item = some JValue.null) :
    evalItem item = some (JValue.arr [JValue.null, JValue.null, JValue.arr []]) := by
  cases item with
  | arr xs =>
      cases xs with
      | nil => simp [isRecognizableEnvelope] at hrec
      | cons x rest =>
          cases x with
          | str m =>
              simp [isRecognizableEnvelope] at hrec
              simp [dataFieldOf, List.get?] at hdata
              simp [evalItem, hrec.1, hrec.2, hdata]
          | null => simp [isRecognizableEnvelope] at hrec
          | jbool b => simp [isRecognizableEnvelope] at hrec
          | num n => simp [isRecognizableEnvelope] at hrec
          | arr ys => simp [isRecognizableEnvelope] at hrec
  | null => simp [isRecognizableEnvelope] at hrec
  | jbool b => simp [isRecognizableEnvelope] at hrec
  | num n => simp [isRecognizableEnvelope] at hrec
  | str s => simp [isRecognizableEnvelope] at hrec

theorem scanItems_append (a b : List JValue) :
    scanItems (a ++ b) =
      match scanItems a with
      | some r => some r
      | none => scanItems b := by
  induction a with
  | nil => simp [scanItems]
  | cons it rest ih =>
      simp only [List.cons_append, scanItems]
      cases evalItem it with
      | some r => rfl
      | none => exact ih

theorem scanItems_none_of_all {items : List JValue}
    (h : ∀ it ∈ items, evalItem it = none) : scanItems items = none := by
  induction items with
  | nil => rfl
  | cons it rest ih =>
      simp only [scanItems, h it (by simp)]
      exact ih (fun x hx => h x (by simp [hx]))

/-- The chunk loop is the item loop over the flattened item sequence: which
chunk an item sits in does not matter, only the item order. -/
theorem scanChunks_eq_scanItems (chunks : List String) :
    scanChunks chunks = scanItems (itemsOfChunks chunks) := by
  induction chunks with
  | nil => rfl
  | cons c rest ih =>
      have hflat : itemsOfChunks (c :: rest) =
          chunkItems c ++ itemsOfChunks rest := by
        simp [itemsOfChunks]
      rw [hflat, scanItems_append]
      cases hp : jsonParse c with
      | none => simp [scanChunks, hp, chunkItems, scanItems, ih]
      | some v =>
          cases v with
          | arr xs =>
              cases xs with
              | nil => simp [scanChunks, hp, chunkItems, scanItems, ih]
              | cons x ys =>
                  simp only [scanChunks, hp, chunkItems]
                  cases scanItems (x :: ys) with
                  | some r => rfl
                  | none => exact ih
          | null => simp [scanChunks, hp, chunkItems, scanItems, ih]
          | jbool b => simp [scanChunks, hp, chunkItems, scanItems, ih]
          | num n => simp [scanChunks, hp, chunkItems, scanItems, ih]
          | str s => simp [scanChunks, hp, chunkItems, scanItems, ih]

/-! ## Decoder sequence-number lemmas -/

/-- The `sequence_number`s of a message list, in order. -/
def msgSeqs (msgs : List DBMessage) : List Nat :=
  msgs.map (fun m => m.sequence_number)

/-- A raw Claude entry the decoder keeps (any other sender is dropped while
the raw index keeps advancing). -/
def claudeKept (msg : ClaudeMsg) : Bool :=
  msg.sender = "human" || msg.sender = "assistant"

/-- A raw Gemini entry the decoder keeps. -/
def geminiKept (msg : GeminiMsg) : Bool :=
  (msg.role = some ("user") || msg.author = some ("user")) ||
    (msg.role = some ("assistant") || msg.role = some ("model") ||
      msg.author = some ("gemini"))

theorem claude_seq_lower (msgs : List ClaudeMsg) (i : Nat) :
    ∀ n ∈ msgSeqs (claudeMessagesAux msgs i), i ≤ n := by
  induction msgs generalizing i with
  | nil => simp [claudeMessagesAux, msgSeqs]
  | cons m rest ih =>
      intro n hn
      simp only [claudeMessagesAux, msgSeqs, List.map_append, List.mem_append]
        at hn
      rcases hn with hn | hn
      · by_cases h1 : m.sender = "human"
        · simp [h1] at hn
          omega
        · by_cases h2 : m.sender = "assistant"
          · simp [h1, h2] at hn
            omega
          · simp [h1, h2] at hn
      · have := ih (i + 1) n (by simpa [msgSeqs] using hn)
        omega

theorem claude_seq_pairwise (msgs : List ClaudeMsg) (i : Nat) :
    (msgSeqs (claudeMessagesAux msgs i)).Pairwise (· < ·) := by
  induction msgs generalizing i with
  | nil => simp [claudeMessagesAux, msgSeqs]
  | cons m rest ih =>
      simp only [claudeMessagesAux, msgSeqs, List.map_append]
      apply List.pairwise_append.mpr
      refine ⟨?_, by simpa [msgSeqs] using ih (i + 1), ?_⟩
      · by_cases h1 : m.sender = "human"
        · simp [h1]
        · by_cases h2 : m.sender = "assistant" <;> simp [h1, h2]
      · intro a ha b hb
        have hbge : i + 1 ≤ b :=
          claude_seq_lower rest (i + 1) b (by simpa [msgSeqs] using hb)
        by_cases h1 : m.sender = "human"
        · simp [h1] at ha
          omega
        · by_cases h2 : m.sender = "assistant"
          · simp [h1, h2] at ha
            omega
          · simp [h1, h2] at ha

theorem claude_seq_range (msgs : List ClaudeMsg) (i : Nat)
    (h : ∀ m ∈ msgs, claudeKept m = true) :
    msgSeqs (claudeMessagesAux msgs i) = List.range' i msgs.length := by
  induction msgs generalizing i with
  | nil => simp [claudeMessagesAux, msgSeqs]
  | cons m rest ih =>
      have hm : claudeKept m = true := h m (by simp)
      have hrest : ∀ x ∈ rest, claudeKept x = true :=
        fun x hx => h x (by simp [hx])
      simp only [claudeKept, Bool.or_eq_true, decide_eq_true_eq] at hm
      have htail := ih (i + 1) hrest
      rcases hm with h1 | h1
      · simp only [claudeMessagesAux, msgSeqs, List.map_append, h1,
          List.length_cons, List.range'_succ]
        simp [msgSeqs] at htail
        simp [htail]
      · by_cases h2 : m.sender = "human"
        · simp only [claudeMessagesAux, msgSeqs, List.map_append, h2,
            List.length_cons, List.range'_succ]
          simp [msgSeqs] at htail
          simp [htail]
        · simp only [claudeMessagesAux, msgSeqs, List.map_append, h1, h2,
            List.length_cons, List.range'_succ]
          simp [msgSeqs] at htail
          simp [htail, h2, h1]

theorem claude_roles (msgs : List ClaudeMsg) (i : Nat) :
    ∀ msg ∈ claudeMessagesAux msgs i,
      msg.role = "user" ∨ msg.role = "assistant" := by
  induction msgs generalizing i with
  | nil => simp [claudeMessagesAux]
  | cons m rest ih =>
      intro msg hmsg
      simp only [claudeMessagesAux, List.mem_append] at hmsg
      rcases hmsg with hmsg | hmsg
      · by_cases h1 : m.sender = "human"
        · simp [h1] at hmsg
          subst hmsg
          left
          rfl
        · by_cases h2 : m.sender = "assistant"
          · simp [h1, h2] at hmsg
            subst hmsg
            right
            rfl
          · simp [h1, h2] at hmsg
      · exact ih (i + 1) msg hmsg

theorem gemini_seq_lower (msgs : List GeminiMsg) (i : Nat) :
    ∀ n ∈ msgSeqs (geminiMessagesAux msgs i), i ≤ n := by
  induction msgs generalizing i with
  | nil => simp [geminiMessagesAux, msgSeqs]
  | cons m rest ih =>
      intro n hn
      simp only [geminiMessagesAux, msgSeqs, List.map_append, List.mem_append]
        at hn
      rcases hn with hn | hn
      · by_cases h1 : (m.role = some ("user") || m.author = some ("user")) = true
        · simp [h1] at hn
          omega
        · by_cases h2 : (m.role = some ("assistant") || m.role = some ("model") ||
              m.author = some ("gemini")) = true
          · simp [h1, h2] at hn
            omega
          · simp [h1, h2] at hn
      · have := ih (i + 1) n (by simpa [msgSeqs] using hn)
        omega

theorem gemini_seq_pairwise (msgs : List GeminiMsg) (i : Nat) :
    (msgSeqs (geminiMessagesAux msgs i)).Pairwise (· < ·) := by
  induction msgs generalizing i with
  | nil => simp [geminiMessagesAux, msgSeqs]
  | cons m rest ih =>
      simp only [geminiMessagesAux, msgSeqs, List.map_append]
      apply List.pairwise_append.mpr
      refine ⟨?_, by simpa [msgSeqs] using ih (i + 1), ?_⟩
      · by_cases h1 : (m.role = some ("user") || m.author = some ("user")) = true
        · simp [h1]
        · by_cases h2 : (m.role = some ("assistant") || m.role = some ("model") ||
              m.author = some ("gemini")) = true <;> simp [h1, h2]
      · intro a ha b hb
        have hbge : i + 1 ≤ b :=
          gemini_seq_lower rest (i + 1) b (by simpa [msgSeqs] using hb)
        by_cases h1 : (m.role = some ("user") || m.author = some ("user")) = true
        · simp [h1] at ha
          omega
        · by_cases h2 : (m.role = some ("assistant") || m.role = some ("model") ||
              m.author = some ("gemini")) = true
          · simp [h1, h2] at ha
            omega
          · simp [h1, h2] at ha

theorem gemini_seq_range (msgs : List GeminiMsg) (i : Nat)
    (h : ∀ m ∈ msgs, geminiKept m = true) :
    msgSeqs (geminiMessagesAux msgs i) = List.range' i msgs.length := by
  induction msgs generalizing i with
  | nil => simp [geminiMessagesAux, msgSeqs]
  | cons m rest ih =>
      have hm : geminiKept m = true := h m (by simp)
      have hrest : ∀ x ∈ rest, geminiKept x = true :=
        fun x hx => h x (by simp [hx])
      have htail := ih (i + 1) hrest
      simp [msgSeqs] at htail
      rw [geminiKept, Bool.or_eq_true] at hm
      by_cases h1 : (m.role = some ("user") || m.author = some ("user")) = true
      · simp only [geminiMessagesAux, msgSeqs, List.map_append, h1,
          List.length_cons, List.range'_succ]
        simp [htail]
      · have h2 : (m.role = some ("assistant") || m.role = some ("model") ||
            m.author = some ("gemini")) = true := by
          rcases hm with hm | hm
          · exact absurd hm h1
          · exact hm
        simp only [geminiMessagesAux, msgSeqs, List.map_append, h1, h2,
          List.length_cons, List.range'_succ]
        simp [htail]

theorem gemini_roles (msgs : List GeminiMsg) (i : Nat) :
    ∀ msg ∈ geminiMessagesAux msgs i,
      msg.role = "user" ∨ msg.role = "assistant" := by
  induction msgs generalizing i with
  | nil => simp [geminiMessagesAux]
  | cons m rest ih =>
      intro msg hmsg
      simp only [geminiMessagesAux, List.mem_append] at hmsg
      rcases hmsg with hmsg | hmsg
      · by_cases h1 : (m.role = some ("user") || m.author = some ("user")) = true
        · simp [h1] at hmsg
          subst hmsg
          left
          rfl
        · by_cases h2 : (m.role = some ("assistant") || m.role = some ("model") ||
              m.author = some ("gemini")) = true
          · simp [h1, h2] at hmsg
            subst hmsg
            right
            rfl
          · simp [h1, h2] at hmsg
      · exact ih (i + 1) msg hmsg

/-- The role the ChatGPT decoder reads from a message (`msg.author?.role`). -/
def chatgptRoleOf (msg : ChatGPTMsg) : Option String :=
  match msg.author with
  | some a => a.role
  | none => none

/-- A message the ChatGPT decoder both keeps on the chain walk (content and
author present) and emits (not system-authored, nonempty content). -/
def msgEmits (msg : ChatGPTMsg) : Bool :=
  msg.content.isSome && msg.author.isSome &&
    !(decide ((match msg.author with
               | some a => a.role
               | none => none) = some ("system"))) &&
    !(decide (jsTrim (chatgptContentText msg) = ""))

/-- A node the walk keeps and the emit loop turns into a message. -/
def nodeEmits (node : ChatGPTNode) : Bool :=
  match node.message with
  | none => false
  | some msg => msgEmits msg

theorem nodeEmits_carries {node : ChatGPTNode} (h : nodeEmits node = true) :
    nodeCarriesMessage node = true := by
  cases hmsg : node.message with
  | none => simp [nodeEmits, hmsg] at h
  | some msg =>
      simp only [nodeEmits, hmsg, msgEmits, Bool.and_eq_true,
        Bool.not_eq_true', decide_eq_false_iff_not] at h
      simp [nodeCarriesMessage, hmsg, h.1.1.1, h.1.1.2]

theorem chatgptEmit_seqs (chain : List ChatGPTNode) :
    ∀ acc, msgSeqs acc = List.range acc.length →
      msgSeqs (chatgptEmit chain acc) =
        List.range (chatgptEmit chain acc).length := by
  induction chain with
  | nil => intro acc h; simpa [chatgptEmit] using h
  | cons node rest ih =>
      intro acc h
      cases hmsg : node.message with
      | none =>
          simp only [chatgptEmit, hmsg]
          exact ih acc h
      | some msg =>
          simp only [chatgptEmit, hmsg]
          by_cases hrole : (match msg.author with
              | some a => a.role
              | none => none) = some ("system")
          · rw [if_pos hrole]
            exact ih acc h
          · rw [if_neg hrole]
            by_cases hcontent : jsTrim (chatgptContentText msg) = ""
            · rw [if_pos hcontent]
              exact ih acc h
            · rw [if_neg hcontent]
              apply ih
              simp [msgSeqs, h, List.range_succ]
              simp [msgSeqs] at h
              simp [h]

theorem chatgpt_roles (chain : List ChatGPTNode) :
    ∀ acc, (∀ m ∈ acc, m.role = "user" ∨ m.role = "assistant") →
      ∀ m ∈ chatgptEmit chain acc, m.role = "user" ∨ m.role = "assistant" := by
  induction chain with
  | nil => intro acc h; simpa [chatgptEmit] using h
  | cons node rest ih =>
      intro acc h
      cases hmsg : node.message with
      | none =>
          simp only [chatgptEmit, hmsg]
          exact ih acc h
      | some msg =>
          simp only [chatgptEmit, hmsg]
          by_cases hrole : (match msg.author with
              | some a => a.role
              | none => none) = some ("system")
          · rw [if_pos hrole]
            exact ih acc h
          · rw [if_neg hrole]
            by_cases hcontent : jsTrim (chatgptContentText msg) = ""
            · rw [if_pos hcontent]
              exact ih acc h
            · rw [if_neg hcontent]
              apply ih
              intro m hm
              rcases List.mem_append.mp hm with hm | hm
              · exact h m hm
              · simp at hm
                subst hm
                by_cases hu : (match msg.author with
                    | some a => a.role
                    | none => none) = some ("user")
                · simp [hu]
                · simp [hu]

theorem chatgptEmit_len_of_emits (chain : List ChatGPTNode) :
    ∀ acc, (∀ n ∈ chain, nodeEmits n = true) →
      (chatgptEmit chain acc).length = acc.length + chain.length := by
  induction chain with
  | nil => intro acc _; simp [chatgptEmit]
  | cons node rest ih =>
      intro acc h
      have hn : nodeEmits node = true := h node (by simp)
      cases hmsg : node.message with
      | none => simp [nodeEmits, hmsg] at hn
      | some msg =>
          simp only [nodeEmits, hmsg, msgEmits, Bool.and_eq_true,
            Bool.not_eq_true', decide_eq_false_iff_not] at hn
          simp only [chatgptEmit, hmsg]
          rw [if_neg hn.1.2, if_neg hn.2]
          rw [ih _ (fun n hx => h n (by simp [hx]))]
          simp
          omega

theorem chain_len_of_all_emit (mapping : List (String × ChatGPTNode)) :
    ∀ (fuel : Nat) (nid : Option String),
      (∀ id ∈ walkPathIds mapping fuel nid, ∀ node,
        lookupNode mapping id = some node → nodeEmits node = true) →
      (buildMessageChain mapping fuel nid).length =
          (walkPathIds mapping fuel nid).length ∧
        ∀ n ∈ buildMessageChain mapping fuel nid, nodeEmits n = true := by
  intro fuel
  induction fuel with
  | zero =>
      intro nid _
      cases nid <;> simp [buildMessageChain, walkPathIds]
  | succ fuel ih =>
      intro nid h
      cases nid with
      | none => simp [buildMessageChain, walkPathIds]
      | some id =>
          by_cases hid : id = ""
          · simp [buildMessageChain, walkPathIds, hid]
          · cases hlook : lookupNode mapping id with
            | none => simp [buildMessageChain, walkPathIds, hid, hlook]
            | some node =>
                have hpath : walkPathIds mapping (fuel + 1) (some id) =
                    walkPathIds mapping fuel node.parent ++ [id] := by
                  simp [walkPathIds, hid, hlook]
                have hchain : buildMessageChain mapping (fuel + 1) (some id) =
                    buildMessageChain mapping fuel node.parent ++
                      (if nodeCarriesMessage node then [node] else []) := by
                  simp [buildMessageChain, hid, hlook]
                have hnode : nodeEmits node = true := by
                  apply h id _ node hlook
                  rw [hpath]
                  simp
                have hparent := ih node.parent (fun i hi nd hnd => by
                  apply h i _ nd hnd
                  rw [hpath]
                  simp [hi])
                constructor
                · rw [hpath, hchain]
                  simp [nodeEmits_carries hnode, hparent.1]
                · intro n hn
                  rw [hchain] at hn
                  rcases List.mem_append.mp hn with hn | hn
                  · exact hparent.2 n hn
                  · rw [if_pos (nodeEmits_carries hnode)] at hn
                    simp at hn
                    subst hn
                    exact hnode

/-! ## Claim theorems -/

/-- C3: Staleness resolution.  For every candidate checked against the
Store's recorded timestamps, the item is reported as needing sync iff it is
absent locally, or its remote timestamp strictly exceeds the stored
timestamp, or the stored timestamp is unknown/null; in particular stored
`T` / remote `T` is not re-synced while remote `T+1` is.  (The backend
check endpoint is modelled from the spec; see `needsSync`.) -/
theorem c3_staleness_resolution :
    (∀ (store : List ((String × String) × Option Int))
        (source externalId : String) (remote : Option Int),
      checkNeedsSync store source externalId remote = true ↔
        (store.find? (fun e => e.1 = (source, externalId)) = none ∨
         (∃ e, store.find? (fun e => e.1 = (source, externalId)) = some e ∧
            e.2 = none) ∨
         (∃ e t r, store.find? (fun e => e.1 = (source, externalId)) = some e ∧
            e.2 = some t ∧ remote = some r ∧ t < r))) ∧
    (∀ (source externalId : String) (T : Int),
      checkNeedsSync [((source, externalId), some T)] source externalId
          (some T) = false ∧
        checkNeedsSync [((source, externalId), some T)] source externalId
          (some (T + 1)) = true) := by
  constructor
  · intro store source externalId remote
    unfold checkNeedsSync needsSync
    cases hfind : store.find? (fun e => e.1 = (source, externalId)) with
    | none => simp
    | some e =>
        cases hstored : e.2 with
        | none => simp [hstored]
        | some t =>
            cases remote with
            | none => simp [hstored]
            | some r => simp [hstored]
  · intro source externalId T
    constructor
    · simp [checkNeedsSync, needsSync, List.find?]
    · simp [checkNeedsSync, needsSync, List.find?]

/-- C9: SyncState update rule.  After a ChatGPT `performSyncAll` run
completes its item loop, the manager's `setChatGPTLastSyncedConversation`
records the FIRST (most-recent) item's id of the run's list — not the last
item processed — together with the full-sync timestamp; an aborted list
fetch or an empty list writes nothing. -/
theorem c9_sync_state_update :
    (∀ (first : ChatGPTListItem) (rest : List ChatGPTListItem)
        (outcomes : List ItemOutcome) (st : ChatGPTSyncState) (now : Int),
      (performSyncAll (first :: rest) outcomes st now).state =
        setChatGPTLastSyncedConversation st first.id ("full") now ∧
      ((performSyncAll (first :: rest) outcomes st now).state).lastKnownConversationId = some first.id ∧
      ((performSyncAll (first :: rest) outcomes st now).state).lastFullSync =
        some now) ∧
    (∀ (outcomes : List ItemOutcome) (st : ChatGPTSyncState) (now : Int),
      (performSyncAllRun none outcomes st now).state = st ∧
      (performSyncAll [] outcomes st now).state = st) := by
  constructor
  · intro first rest outcomes st now
    refine ⟨rfl, ?_, ?_⟩ <;>
      simp [performSyncAll, setChatGPTLastSyncedConversation]
  · intro outcomes st now
    exact ⟨rfl, rfl⟩

/-- C10 counterexample: a run whose list fetch returns zero conversations
ends with NO `{synced, failed, total}` summary (both the ChatGPT and the
Gemini `performSyncAll` return early with only a ("No conversations found")
notification), so ("every run ends by reporting a summary containing the
synced and failed counts") fails as stated on the empty-list run. -/
theorem c10_counterexample :
    (performSyncAll [] [] {} 0).summary = none ∧
      geminiPerformSyncAllSummary [] = none :=
  ⟨rfl, rfl⟩

theorem syncLoopCounts_total (outcomes : List ItemOutcome) :
    (syncLoopCounts outcomes).1 + (syncLoopCounts outcomes).2 =
      outcomes.length := by
  induction outcomes with
  | nil => rfl
  | cons o rest ih =>
      cases o <;> simp [syncLoopCounts] <;> omega

theorem geminiSyncLoopCounts_total (items : List GeminiRunItem) :
    (geminiSyncLoopCounts items).1 + (geminiSyncLoopCounts items).2 =
      items.length := by
  induction items with
  | nil => rfl
  | cons it rest ih =>
      by_cases hid : it.hasId
      · cases ho : it.outcome <;> simp [geminiSyncLoopCounts, hid, ho] <;> omega
      · simp [geminiSyncLoopCounts, hid]
        omega

theorem syncLoopCounts_all_exn (n : Nat) :
    syncLoopCounts (List.replicate n ItemOutcome.exn) = (0, n) := by
  induction n with
  | zero => rfl
  | succ n ih => simp [List.replicate_succ, syncLoopCounts, ih]

/-- C10 (amended): per-item failure isolation and run reporting.  Within a
run's item loop a detail-fetch error or a non-OK import response increments
the failed count and processing continues (`synced + failed` always equals
the number of items, so no failure aborts the batch); every run whose
fetched list is NONEMPTY reports a `{synced, failed, total}` summary (a run
that finds no conversations at all reports a count-free notification
instead); and a run in which every item failed reports `(0, n, n)`, which
differs from the `(0, 0, total)` summary of a quick-sync run with zero
remote changes. -/
theorem c10_failure_isolation :
    (∀ outcomes : List ItemOutcome,
      (syncLoopCounts outcomes).1 + (syncLoopCounts outcomes).2 =
        outcomes.length) ∧
    (∀ items : List GeminiRunItem,
      (geminiSyncLoopCounts items).1 + (geminiSyncLoopCounts items).2 =
        items.length) ∧
    (∀ (first : ChatGPTListItem) (rest : List ChatGPTListItem)
        (outcomes : List ItemOutcome) (st : ChatGPTSyncState) (now : Int),
      outcomes.length = (first :: rest).length →
      (performSyncAll (first :: rest) outcomes st now).summary =
        some ((syncLoopCounts outcomes).1, (syncLoopCounts outcomes).2,
          (first :: rest).length)) ∧
    (∀ items : List GeminiRunItem, items ≠ [] →
      geminiPerformSyncAllSummary items =
        some ((geminiSyncLoopCounts items).1, (geminiSyncLoopCounts items).2,
          items.length)) ∧
    (∀ (n k : Nat) (st : ChatGPTSyncState) (now : Int), 0 < n →
      (performSyncAll (List.replicate n { id := "x" })
          (List.replicate n ItemOutcome.exn) st now).summary ≠
        some (performSyncQuickZeroChanges k)) := by
  refine ⟨syncLoopCounts_total, geminiSyncLoopCounts_total, ?_, ?_, ?_⟩
  · intro first rest outcomes st now hlen
    have htake : outcomes.take (rest.length + 1) = outcomes := by
      have hl : outcomes.length = rest.length + 1 := by simpa using hlen
      rw [← hl, List.take_length]
    simp [performSyncAll, htake]
  · intro items hne
    cases items with
    | nil => exact absurd rfl hne
    | cons it rest => rfl
  · intro n k st now hn
    cases n with
    | zero => omega
    | succ n =>
        have hrep : List.replicate (n + 1) ({ id := "x" } : ChatGPTListItem) =
            { id := "x" } :: List.replicate n { id := "x" } :=
          List.replicate_succ _ _
        have hsum : (performSyncAll
            ({ id := "x" } :: List.replicate n ({ id := "x" } : ChatGPTListItem))
            (List.replicate (n + 1) ItemOutcome.exn) st now).summary =
            some (0, n + 1, n + 1) := by
          simp [performSyncAll, List.take_replicate, syncLoopCounts_all_exn]
        rw [hrep, hsum]
        simp [performSyncQuickZeroChanges]

/-- Witness for C10: concrete runs — one mixed success/failure run reports
`(1, 1, 2)`, a Gemini run with one id-less row reports `(1, 1, 2)`, and an
all-failed two-item run's summary differs from a zero-changes summary. -/
theorem c10_failure_isolation_witness :
    (performSyncAll [⟨("a")⟩, ⟨("b")⟩]
        [ItemOutcome.ok, ItemOutcome.httpFail] {} 0).summary =
      some (1, 1, 2) ∧
    geminiPerformSyncAllSummary
        [⟨true, ItemOutcome.ok⟩, ⟨false, ItemOutcome.ok⟩] = some (1, 1, 2) ∧
    (performSyncAll ({ id := "x" } :: List.replicate 1 ({ id := "x" } : ChatGPTListItem))
        (List.replicate 2 ItemOutcome.exn) {} 0).summary ≠
      some (performSyncQuickZeroChanges 2) := by
  refine ⟨?_, ?_, ?_⟩
  · have h := c10_failure_isolation.2.2.1 ⟨("a")⟩ [⟨("b")⟩]
      [ItemOutcome.ok, ItemOutcome.httpFail] {} 0 (by rfl)
    rw [h]
    rfl
  · have h := c10_failure_isolation.2.2.2.1
      [⟨true, ItemOutcome.ok⟩, ⟨false, ItemOutcome.ok⟩] (by simp)
    rw [h]
    rfl
  · have h := c10_failure_isolation.2.2.2.2 2 2 {} 0 (by omega)
    simpa [List.replicate_succ] using h

/-- C1 counterexample: in Claude's client the `maxLimit` truncation is
applied AFTER the stop-id slice, so with the stop id at position 2 and
`maxLimit = 1` the candidates are `[A]`, not the claimed ("exactly the items
at positions 0..i-1") (`[A, B]`).  Incremental mode always passes a max limit
(`quickSyncDepth`, default 50), so the configuration is reachable. -/
theorem c1_counterexample :
    ([⟨("a")⟩, ⟨("b")⟩, ⟨("c")⟩] : List ClaudeListItem).findIdx?
        (fun c => c.uuid = ("c")) = some 2 ∧
    claudeFilterConversations [⟨("a")⟩, ⟨("b")⟩, ⟨("c")⟩] (some 1)
        (some ("c")) = [⟨("a")⟩] ∧
    ([⟨("a")⟩] : List ClaudeListItem) ≠
      ([⟨("a")⟩, ⟨("b")⟩, ⟨("c")⟩] : List ClaudeListItem).take 2 := by
  refine ⟨by decide, by decide, by decide⟩

/-- C1 (amended): incremental-mode candidate collection.  For a fetched list
in which the stop id first occurs at position `i`, the returned candidates
are exactly the items at positions `0..i-1` — PROVIDED the configured
maximum item count does not truncate the list before position `i` (Claude
client; a `maxLimit` of `0` is falsy and means ("no limit")).  The ChatGPT
client checks the stop id before enforcing the limit, so for a page
containing the stop id at position `i` it returns the items before it
regardless of the limit. -/
theorem c1_incremental_candidates :
    (∀ (convs : List ClaudeListItem) (stopId : String) (i : Nat)
        (maxLimit : Option Nat),
      stopId ≠ "" →
      convs.findIdx? (fun c => c.uuid = stopId) = some i →
      (maxLimit = none ∨ ∃ m, maxLimit = some m ∧ (m = 0 ∨ i ≤ m)) →
      claudeFilterConversations convs maxLimit (some stopId) = convs.take i) ∧
    (∀ (items : List ChatGPTListItem) (total : Option Nat) (stopId : String)
        (i : Nat) (maxLimit : Option Nat),
      stopId ≠ "" →
      items.findIdx? (fun c => c.id = stopId) = some i →
      chatgptFetchAllConversations [{ items := items, total := total }]
        maxLimit (some stopId) = items.take i) := by
  constructor
  · intro convs stopId i maxLimit hne hidx hlim
    have hstop : claudeApplyStop convs (some stopId) = convs.take i := by
      simp only [claudeApplyStop, if_pos hne, hidx]
    have hlen : (convs.take i).length ≤ i := by simp
    unfold claudeFilterConversations
    rw [hstop]
    rcases hlim with hlim | ⟨m, hm, hcase⟩
    · simp [hlim, claudeApplyLimit]
    · subst hm
      rcases hcase with h0 | hle
      · simp [h0, claudeApplyLimit]
      · have hnl : ¬ (m < (convs.take i).length) := by omega
        simp [claudeApplyLimit, hnl]
        omega
  · intro items total stopId i maxLimit hne hidx
    unfold chatgptFetchAllConversations chatgptFetchAux
    simp [hne, hidx]

/-- Witness for C1: the spec's own boundary example.  A page
`[A, B, C, D]` with `D == lastKnownExternalId` yields exactly `[A, B, C]`
for the Claude filter (no binding limit) and for the ChatGPT page loop even
with `maxLimit = 2` (its stop check precedes the limit). -/
theorem c1_incremental_candidates_witness :
    claudeFilterConversations [⟨("a")⟩, ⟨("b")⟩, ⟨("c")⟩, ⟨("d")⟩] none
        (some ("d")) = [⟨("a")⟩, ⟨("b")⟩, ⟨("c")⟩] ∧
    chatgptFetchAllConversations
        [{ items := [⟨("a")⟩, ⟨("b")⟩, ⟨("c")⟩, ⟨("d")⟩], total := none }]
        (some 2) (some ("d")) = [⟨("a")⟩, ⟨("b")⟩, ⟨("c")⟩] := by
  constructor
  · have h := c1_incremental_candidates.1
      [⟨("a")⟩, ⟨("b")⟩, ⟨("c")⟩, ⟨("d")⟩] ("d") 3 none
      (by decide) (by decide) (Or.inl rfl)
    rw [h]
    rfl
  · have h := c1_incremental_candidates.2
      [⟨("a")⟩, ⟨("b")⟩, ⟨("c")⟩, ⟨("d")⟩] none ("d") 3 (some 2)
      (by decide) (by decide)
    rw [h]
    rfl

/-- C4 counterexample: the Gemini pagination loop's continuation check is
`nextToken && typeof nextToken === 'string'`, which branches on the token's
contents: a response whose marker slot holds the PRESENT, NON-NULL empty
string ends pagination (one request only), although the claim says
pagination stops exactly when the marker is absent or null. -/
theorem c4_counterexample :
    contTokenOf (JValue.arr [JValue.null, JValue.str (""), JValue.arr []]) =
      none ∧
    (geminiFetchPages ("S")
        [JValue.arr [JValue.null, JValue.str (""), JValue.arr []],
         JValue.arr [JValue.null, JValue.null,
           JValue.arr [JValue.arr [JValue.str ("x2")]]]]).fst = [("S")] :=
  ⟨rfl, rfl⟩

/-- C4 (amended): full-mode pagination of the Gemini list endpoint echoes
each response's continuation token unchanged as the session token of the
next request whenever that token is a truthy (nonempty) string, and stops
issuing further page requests exactly when the returned token is absent,
null, or not a truthy string — in particular a null/absent marker ends
pagination with no additional page request.  The session tokens sent are
precisely the initial token followed by the echoed markers of the maximal
prefix of responses carrying truthy string markers. -/
theorem c4_pagination :
    (∀ (init : String) (rs : List JValue),
      (geminiFetchPages init rs).fst =
        init :: ((rs.map contTokenOf).takeWhile Option.isSome).map
          (fun o => o.getD (""))) ∧
    (∀ (init : String) (data : JValue) (rest : List JValue),
      contTokenOf data = none →
      (geminiFetchPages init (data :: rest)).fst = [init]) := by
  constructor
  · intro init rs
    induction rs generalizing init with
    | nil => simp [geminiFetchPages]
    | cons data rest ih =>
        cases h : contTokenOf data with
        | some next =>
            simp [geminiFetchPages, h, ih next]
        | none =>
            simp [geminiFetchPages, h]
  · intro init data rest h
    simp [geminiFetchPages, h]

/-- Witness for C4: a truthy string token `T2` is echoed as the second
request's session token; a null-marker response ends pagination after one
request. -/
theorem c4_pagination_witness :
    (geminiFetchPages ("S")
        [JValue.arr [JValue.null, JValue.str ("T2"), JValue.arr []],
         JValue.arr [JValue.null, JValue.null, JValue.arr []]]).fst =
      [("S"), ("T2")] ∧
    (geminiFetchPages ("S")
        [JValue.arr [JValue.null, JValue.null, JValue.arr []],
         JValue.arr [JValue.null, JValue.null, JValue.arr []]]).fst =
      [("S")] := by
  constructor
  · have h := c4_pagination.1 ("S")
      [JValue.arr [JValue.null, JValue.str ("T2"), JValue.arr []],
       JValue.arr [JValue.null, JValue.null, JValue.arr []]]
    rw [h]
    rfl
  · exact c4_pagination.2 ("S") _ _ rfl

theorem rowId0_setRowId {conv : JValue} {id : String}
    (h : dedupIdOf conv = some id) : rowId0 (setRowId conv id) = some id := by
  cases conv with
  | arr xs =>
      cases xs with
      | nil => simp [dedupIdOf] at h
      | cons v rest => simp [setRowId, rowId0]
  | null => simp [dedupIdOf] at h
  | jbool b => simp [dedupIdOf] at h
  | num n => simp [dedupIdOf] at h
  | str s => simp [dedupIdOf] at h

theorem geminiDedupAux_ids (convs : List JValue) :
    ∀ seen : List String,
      ((geminiDedupAux convs seen).filterMap rowId0).Nodup ∧
      (∀ i ∈ (geminiDedupAux convs seen).filterMap rowId0,
        seen.contains i = false) ∧
      (∀ conv ∈ geminiDedupAux convs seen, (rowId0 conv).isSome = true) := by
  induction convs with
  | nil => intro seen; simp [geminiDedupAux]
  | cons conv rest ih =>
      intro seen
      cases hid : dedupIdOf conv with
      | none =>
          have hout : geminiDedupAux (conv :: rest) seen =
              geminiDedupAux rest seen := by
            simp only [geminiDedupAux, hid]
          rw [hout]
          exact ih seen
      | some id =>
          cases hseen : seen.contains id with
          | true =>
              have hout : geminiDedupAux (conv :: rest) seen =
                  geminiDedupAux rest seen := by
                simp only [geminiDedupAux, hid, hseen, if_true]
              rw [hout]
              exact ih seen
          | false =>
              have hrow := rowId0_setRowId hid
              have hrec := ih (id :: seen)
              have hout : geminiDedupAux (conv :: rest) seen =
                  setRowId conv id :: geminiDedupAux rest (id :: seen) := by
                simp only [geminiDedupAux, hid, hseen, Bool.false_eq_true,
                  if_false]
              have hfm : (geminiDedupAux (conv :: rest) seen).filterMap rowId0 =
                  id :: (geminiDedupAux rest (id :: seen)).filterMap rowId0 := by
                rw [hout]
                simp [List.filterMap_cons, hrow]
              refine ⟨?_, ?_, ?_⟩
              · rw [hfm]
                refine List.nodup_cons.mpr ⟨?_, hrec.1⟩
                intro hb
                have hc := hrec.2.1 id hb
                rw [List.contains_cons] at hc
                simp at hc
              · intro i hi
                rw [hfm] at hi
                rcases List.mem_cons.mp hi with hi | hi
                · subst hi
                  exact hseen
                · have hc := hrec.2.1 i hi
                  rw [List.contains_cons] at hc
                  exact (Bool.or_eq_false_iff.mp hc).2
              · intro c hc
                rw [hout] at hc
                rcases List.mem_cons.mp hc with hc | hc
                · subst hc
                  simp [hrow]
                · exact hrec.2.2 c hc

/-- C2 helper (ChatGPT): the emitted sequence numbers of any decoded ChatGPT
conversation are `0, 1, …, len-1`. -/
theorem chatgpt_seqs_range (c : ChatGPTConversation) :
    msgSeqs (convertChatGPTAPIToDBFormat c).messages =
      List.range (convertChatGPTAPIToDBFormat c).messages.length := by
  unfold convertChatGPTAPIToDBFormat
  exact chatgptEmit_seqs _ [] (by simp [msgSeqs])

/-- C8: identifier normalization and dedup.  `normalizeConversationId`
strips the `c_` routing marker, so a raw id seen with and without it yields
the same external id (for ids that do not themselves begin with `c_`, which
Gemini's hex ids never do); and the fetch's final conversation list holds at
most one row per normalized id — every surviving row carries a usable
normalized id in slot 0 and these ids are pairwise distinct. -/
theorem c8_id_normalization_dedup :
    (∀ s : String, (['c', '_'].isPrefixOf s.data) = false →
      normalizeConversationId (String.mk ('c' :: '_' :: s.data)) =
          normalizeConversationId s ∧
        normalizeConversationId s = s) ∧
    (∀ convs : List JValue,
      ((geminiDedup convs).filterMap rowId0).Nodup ∧
      ∀ conv ∈ geminiDedup convs, (rowId0 conv).isSome = true) := by
  constructor
  · intro s h
    have hself : normalizeConversationId s = s := by
      cases s with
      | mk data =>
          cases data with
          | nil => rfl
          | cons a d2 =>
              cases d2 with
              | nil => rfl
              | cons b d3 =>
                  simp [normalizeConversationId]
                  intro ha hb
                  subst ha
                  subst hb
                  simp [List.isPrefixOf] at h
    constructor
    · rw [hself]
      cases s with
      | mk data => simp [normalizeConversationId]
    · exact hself
  · intro convs
    exact ⟨(geminiDedupAux_ids convs []).1, (geminiDedupAux_ids convs []).2.2⟩

/-- Witness for C8: a hex id with and without the routing marker normalizes
identically, and a list carrying the same conversation in both spellings
dedups to a single row. -/
theorem c8_id_normalization_dedup_witness :
    normalizeConversationId (String.mk ('c' :: '_' :: ("3911918e").data)) =
        normalizeConversationId ("3911918e") ∧
      normalizeConversationId ("3911918e") = ("3911918e") ∧
      ((geminiDedup [JValue.arr [JValue.str ("c_3911918e")],
          JValue.arr [JValue.str ("3911918e")]]).filterMap rowId0).Nodup ∧
      geminiDedup [JValue.arr [JValue.str ("c_3911918e")],
          JValue.arr [JValue.str ("3911918e")]] =
        [JValue.arr [JValue.str ("3911918e")]] := by
  have h1 := (c8_id_normalization_dedup.1 ("3911918e") (by decide))
  have h2 := c8_id_normalization_dedup.2
    [JValue.arr [JValue.str ("c_3911918e")], JValue.arr [JValue.str ("3911918e")]]
  exact ⟨h1.1, h1.2, h2.1, rfl⟩

/-- C2 counterexample: the Claude decoder numbers messages by the RAW
`forEach` index, so a dropped (non-human, non-assistant) leading entry
leaves a gap: decoding `[system, human]` yields one message carrying
`sequence_number = 1`, not `0` — the sequence is not gap-free from 0. -/
theorem c2_counterexample :
    msgSeqs (convertClaudeAPIToDBFormat
      { uuid := ("u")
        chat_messages := some
          [{ sender := ("system") },
           { sender := ("human"), text := some ("hi") }] }).messages = [1] ∧
    msgSeqs (convertClaudeAPIToDBFormat
      { uuid := ("u")
        chat_messages := some
          [{ sender := ("system") },
           { sender := ("human"), text := some ("hi") }] }).messages ≠
      List.range (convertClaudeAPIToDBFormat
        { uuid := ("u")
          chat_messages := some
            [{ sender := ("system") },
             { sender := ("human"), text := some ("hi") }] }).messages.length :=
  ⟨rfl, by decide⟩

/-- C2 (amended): decoder output invariants.  Every decoded conversation has
strictly increasing `sequence_number`s and only `user`/`assistant` roles
(never a system-authored message).  The numbering is additionally gap-free
from 0: unconditionally for the ChatGPT decoder (which numbers by emission
position), and for the Claude and Gemini decoders whenever every raw entry
has a recognized author (they number by raw index, so dropped entries leave
gaps). -/
theorem c2_decode_invariants :
    (∀ c : ClaudeConversation,
      (msgSeqs (convertClaudeAPIToDBFormat c).messages).Pairwise (· < ·) ∧
      (∀ m ∈ (convertClaudeAPIToDBFormat c).messages,
        m.role = "user" ∨ m.role = "assistant") ∧
      ((∀ msg ∈ c.chat_messages.getD [], claudeKept msg = true) →
        msgSeqs (convertClaudeAPIToDBFormat c).messages =
          List.range (convertClaudeAPIToDBFormat c).messages.length)) ∧
    (∀ c : GeminiConversation,
      (msgSeqs (convertGeminiAPIToDBFormat c).messages).Pairwise (· < ·) ∧
      (∀ m ∈ (convertGeminiAPIToDBFormat c).messages,
        m.role = "user" ∨ m.role = "assistant") ∧
      ((∀ msg ∈ c.messages.getD [], geminiKept msg = true) →
        msgSeqs (convertGeminiAPIToDBFormat c).messages =
          List.range (convertGeminiAPIToDBFormat c).messages.length)) ∧
    (∀ c : ChatGPTConversation,
      msgSeqs (convertChatGPTAPIToDBFormat c).messages =
        List.range (convertChatGPTAPIToDBFormat c).messages.length ∧
      ∀ m ∈ (convertChatGPTAPIToDBFormat c).messages,
        m.role = "user" ∨ m.role = "assistant") := by
  refine ⟨?_, ?_, ?_⟩
  · intro c
    cases hmsgs : c.chat_messages with
    | none =>
        simp [convertClaudeAPIToDBFormat, hmsgs, msgSeqs]
    | some msgs =>
        refine ⟨?_, ?_, ?_⟩
        · simpa [convertClaudeAPIToDBFormat, hmsgs] using
            claude_seq_pairwise msgs 0
        · intro m hm
          exact claude_roles msgs 0 m
            (by simpa [convertClaudeAPIToDBFormat, hmsgs] using hm)
        · intro hkept
          have hk : ∀ msg ∈ msgs, claudeKept msg = true := by
            simpa [hmsgs] using hkept
          have hseq := claude_seq_range msgs 0 hk
          have hlen : (convertClaudeAPIToDBFormat c).messages.length =
              msgs.length := by
            have := congrArg List.length hseq
            simpa [convertClaudeAPIToDBFormat, hmsgs, msgSeqs] using this
          rw [hlen]
          simpa [convertClaudeAPIToDBFormat, hmsgs, List.range_eq_range']
            using hseq
  · intro c
    cases hmsgs : c.messages with
    | none =>
        simp [convertGeminiAPIToDBFormat, hmsgs, msgSeqs]
    | some msgs =>
        refine ⟨?_, ?_, ?_⟩
        · simpa [convertGeminiAPIToDBFormat, hmsgs] using
            gemini_seq_pairwise msgs 0
        · intro m hm
          exact gemini_roles msgs 0 m
            (by simpa [convertGeminiAPIToDBFormat, hmsgs] using hm)
        · intro hkept
          have hk : ∀ msg ∈ msgs, geminiKept msg = true := by
            simpa [hmsgs] using hkept
          have hseq := gemini_seq_range msgs 0 hk
          have hlen : (convertGeminiAPIToDBFormat c).messages.length =
              msgs.length := by
            have := congrArg List.length hseq
            simpa [convertGeminiAPIToDBFormat, hmsgs, msgSeqs] using this
          rw [hlen]
          simpa [convertGeminiAPIToDBFormat, hmsgs, List.range_eq_range']
            using hseq
  · intro c
    refine ⟨chatgpt_seqs_range c, ?_⟩
    intro m hm
    exact chatgpt_roles _ [] (by simp) m
      (by simpa [convertChatGPTAPIToDBFormat] using hm)

/-- Witness for C2: a Claude conversation whose entries are all recognized
decodes with sequence numbers `[0, 1]`; likewise for Gemini; a concrete
ChatGPT payload decodes with `[0]`. -/
theorem c2_decode_invariants_witness :
    msgSeqs (convertClaudeAPIToDBFormat
      { uuid := ("u")
        chat_messages := some
          [{ sender := ("human"), text := some ("hi") },
           { sender := ("assistant"), text := some ("yo") }] }).messages =
      [0, 1] ∧
    msgSeqs (convertGeminiAPIToDBFormat
      { messages := some
          [{ role := some ("user"), content := some ("q") },
           { role := some ("model"), content := some ("a") }] }).messages =
      [0, 1] := by
  constructor
  · have h := (c2_decode_invariants.1
      { uuid := ("u")
        chat_messages := some
          [{ sender := ("human"), text := some ("hi") },
           { sender := ("assistant"), text := some ("yo") }] }).2.2
      (by decide)
    rw [h]
    rfl
  · have h := (c2_decode_invariants.2.1
      { messages := some
          [{ role := some ("user"), content := some ("q") },
           { role := some ("model"), content := some ("a") }] }).2.2
      (by decide)
    rw [h]
    rfl

/-- Whether the node a path id resolves to would be fully emitted (vacuously
true for ids without a mapping entry; the walk never visits those). -/
def pathNodeEmits (mapping : List (String × ChatGPTNode)) (id : String) :
    Bool :=
  match lookupNode mapping id with
  | some node => nodeEmits node
  | none => true

/-- The mapping of the C6 counterexample: a message-less root (as ChatGPT
payloads have) with one user child, `current_node` at the child. -/
def c6exConversation : ChatGPTConversation :=
  { mapping :=
      [(("A"),
        { message := some
            { author := some { role := some ("user") }
              content := some { parts := some [ChatGPTPart.pstr ("hi")] } }
          parent := some ("root") }),
       (("root"), { message := none, parent := none })]
    current_node := some ("A") }

/-- C6 counterexample: the root-to-leaf path of the counterexample payload
has 2 nodes, but the reconstructed conversation has 1 message — the
message-less root is dropped, so the count does not ("match the root-to-leaf
path length exactly"). -/
theorem c6_counterexample :
    (convertChatGPTAPIToDBFormat c6exConversation).messages.length = 1 ∧
    (walkPathIds c6exConversation.mapping c6exConversation.mapping.length
      c6exConversation.current_node).length = 2 ∧
    (1 : Nat) ≠ 2 :=
  ⟨rfl, rfl, by decide⟩

/-- C6 (amended): tree reconstruction.  The decoder walks parent links from
`current_node` to the root and emits the chain in order, so sequence numbers
are strictly increasing and gap-free from 0; the number of reconstructed
messages equals the number of walked path nodes whenever every node on the
path carries a non-system, nonempty message (nodes failing this — e.g. the
message-less root — are dropped, shortening the output below the path
length). -/
theorem c6_tree_reconstruction :
    (∀ c : ChatGPTConversation,
      msgSeqs (convertChatGPTAPIToDBFormat c).messages =
        List.range (convertChatGPTAPIToDBFormat c).messages.length) ∧
    (∀ c : ChatGPTConversation,
      (∀ id ∈ walkPathIds c.mapping c.mapping.length c.current_node,
        pathNodeEmits c.mapping id = true) →
      (convertChatGPTAPIToDBFormat c).messages.length =
        (walkPathIds c.mapping c.mapping.length c.current_node).length) := by
  constructor
  · exact chatgpt_seqs_range
  · intro c h
    have h' : ∀ id ∈ walkPathIds c.mapping c.mapping.length c.current_node,
        ∀ node, lookupNode c.mapping id = some node → nodeEmits node = true := by
      intro id hid node hnode
      have := h id hid
      rw [pathNodeEmits, hnode] at this
      exact this
    have hchain := chain_len_of_all_emit c.mapping c.mapping.length
      c.current_node h'
    have hemit := chatgptEmit_len_of_emits
      (buildMessageChain c.mapping c.mapping.length c.current_node) []
      hchain.2
    simpa [convertChatGPTAPIToDBFormat, hchain.1] using hemit

/-- Witness for C6: a two-node payload whose nodes both carry proper
messages reconstructs exactly 2 messages over its 2-node path. -/
theorem c6_tree_reconstruction_witness :
    (convertChatGPTAPIToDBFormat
      { mapping :=
          [(("A"),
            { message := some
                { author := some { role := some ("assistant") }
                  content := some { parts := some [ChatGPTPart.pstr ("a")] } }
              parent := some ("root") }),
           (("root"),
            { message := some
                { author := some { role := some ("user") }
                  content := some { parts := some [ChatGPTPart.pstr ("q")] } }
              parent := none })]
        current_node := some ("A") }).messages.length =
      (walkPathIds
        [(("A"),
          { message := some
              { author := some { role := some ("assistant") }
                content := some { parts := some [ChatGPTPart.pstr ("a")] } }
            parent := some ("root") }),
         (("root"),
          { message := some
              { author := some { role := some ("user") }
                content := some { parts := some [ChatGPTPart.pstr ("q")] } }
            parent := none })] 2 (some ("A"))).length :=
  c6_tree_reconstruction.2
    { mapping :=
        [(("A"),
          { message := some
              { author := some { role := some ("assistant") }
                content := some { parts := some [ChatGPTPart.pstr ("a")] } }
            parent := some ("root") }),
         (("root"),
          { message := some
              { author := some { role := some ("user") }
                content := some { parts := some [ChatGPTPart.pstr ("q")] } }
            parent := none })]
      current_node := some ("A") }
    (by decide)

/-- C5: envelope decode failure semantics.  A payload whose first
recognizable `wrb.fr` envelope (`wrb.fr` marker, truthy rpc id) carries an
explicitly-`null` data slot parses to the empty result structure
`[null, null, []]` rather than an error; a payload none of whose chunks
contains a recognizable `wrb.fr` envelope raises a decode failure carrying
the offending chunk fragments (the source `console.error`-logs the chunk
list and throws; the `Except.error` payload is that logged list). -/
theorem c5_envelope_failure_semantics :
    (∀ segs : List String, (∀ s ∈ segs, wfSeg s = true) →
      (∀ it ∈ itemsOfChunks segs, isRecognizableEnvelope it = false) →
      parseLines (assembleLines segs) = Except.error segs) ∧
    (∀ (segs : List String) (pre post : List JValue) (item : JValue),
      (∀ s ∈ segs, wfSeg s = true) →
      itemsOfChunks segs = pre ++ item :: post →
      (∀ it ∈ pre, evalItem it = none) →
      isRecognizableEnvelope item = true →
      dataFieldOf item = some JValue.null →
      parseLines (assembleLines segs) =
        Except.ok (JValue.arr [JValue.null, JValue.null, JValue.arr []])) := by
  constructor
  · intro segs hwf hnone
    unfold parseLines
    rw [collectChunks_assemble segs hwf, scanChunks_eq_scanItems,
      scanItems_none_of_all
        (fun it hit => evalItem_none_of_not_recognizable (hnone it hit))]
  · intro segs pre post item hwf hitems hpre hrec hdata
    unfold parseLines
    rw [collectChunks_assemble segs hwf, scanChunks_eq_scanItems, hitems,
      scanItems_append, scanItems_none_of_all hpre]
    simp [scanItems, evalItem_null_data hrec hdata]

/-- Witness for C5: a chunk with no envelope decodes to an error carrying
the fragment; a chunk with a null-data `wrb.fr` envelope decodes to
`[null, null, []]`. -/
theorem c5_envelope_failure_semantics_witness :
    parseLines (assembleLines [("[[1]]")]) = Except.error [("[[1]]")] ∧
    parseLines (assembleLines [("[[\"wrb.fr\",\"X\",null]]")]) =
      Except.ok (JValue.arr [JValue.null, JValue.null, JValue.arr []]) ∧
    parseBatchExecuteResponse
        (String.mk (csrfMarker ++ ("2\n[[1]]").data)) =
      Except.error [("[[1]]")] ∧
    parseBatchExecuteResponse
        (String.mk (csrfMarker ++ ("1\n[[\"wrb.fr\",\"X\",null]]").data)) =
      Except.ok (JValue.arr [JValue.null, JValue.null, JValue.arr []]) := by
  refine ⟨?_, ?_, rfl, rfl⟩
  · exact c5_envelope_failure_semantics.1 [("[[1]]")] (by decide) (by decide)
  · exact c5_envelope_failure_semantics.2 [("[[\"wrb.fr\",\"X\",null]]")]
      [] [] (JValue.arr [JValue.str ("wrb.fr"), JValue.str ("X"), JValue.null])
      (by decide) rfl (by simp) (by decide) rfl

/-- C7 counterexample: two payloads carrying the same logical bytes — one as
a single length-prefixed segment, one split mid-value into two segments —
decode differently: the first parses to `[null, null, []]`, the second's
fragments both fail `JSON.parse`, so the parse throws.  The source parses
each length-prefixed segment independently and never reassembles segments
before structural parsing, so splitting at a non-item boundary is not
output-invariant. -/
theorem c7_counterexample :
    (("[[\"wrb.fr\",") ++ ("\"X\",null]]") : String) =
      ("[[\"wrb.fr\",\"X\",null]]") ∧
    parseBatchExecuteResponse
        (String.mk (csrfMarker ++ ("1\n[[\"wrb.fr\",\"X\",null]]").data)) =
      Except.ok (JValue.arr [JValue.null, JValue.null, JValue.arr []]) ∧
    parseBatchExecuteResponse
        (String.mk (csrfMarker ++ ("1\n[[\"wrb.fr\",\n1\n\"X\",null]]").data)) =
      Except.error [("[[\"wrb.fr\","), ("\"X\",null]]")] :=
  ⟨rfl, rfl, rfl⟩

/-- C7 (amended): chunk-boundary invariance holds at ITEM boundaries: two
multi-segment payloads whose length-prefixed segments are each complete
JSON fragments and whose envelope items coincide in order decode to the
same result (up to the diagnostic fragment list carried by a decode
failure); a boundary that cuts through a JSON value instead turns the
decode into a failure, so the claim does not hold for arbitrary
re-splittings of the same bytes. -/
theorem c7_chunk_boundary_invariance :
    ∀ (segsA segsB : List String),
      (∀ s ∈ segsA, wfSeg s = true) → (∀ s ∈ segsB, wfSeg s = true) →
      itemsOfChunks segsA = itemsOfChunks segsB →
      (parseLines (assembleLines segsA)).toOption =
        (parseLines (assembleLines segsB)).toOption := by
  intro segsA segsB hA hB hitems
  unfold parseLines
  rw [collectChunks_assemble segsA hA, collectChunks_assemble segsB hB,
    scanChunks_eq_scanItems, scanChunks_eq_scanItems, hitems]
  cases scanItems (itemsOfChunks segsB) <;> rfl

/-- Witness for C7: grouping the same envelope item list as one segment or
as an empty-array segment plus the envelope segment decodes identically. -/
theorem c7_chunk_boundary_invariance_witness :
    (parseLines (assembleLines [("[[\"wrb.fr\",\"X\",null]]")])).toOption =
      (parseLines (assembleLines
        [("[]"), ("[[\"wrb.fr\",\"X\",null]]")])).toOption :=
  c7_chunk_boundary_invariance [("[[\"wrb.fr\",\"X\",null]]")]
    [("[]"), ("[[\"wrb.fr\",\"X\",null]]")] (by decide) (by decide) rfl

end AIChatLog
